import Mathlib

/-!
# wwqdrh/datamanager: policy registry, runtime configuration and manager lifecycle

A shallow embedding of `runtime/config.go`, `main.go` and `service/dblog/meta.go`.
Go `int` values are `Int` (the code only compares and copies them), Go strings are
`String`, a nil-able pointer or interface is an `Option`, and every collaborator whose
code is outside the embedded files (database driver, policy repository, struct handler,
logger) is an oracle field of an environment record.
-/

namespace DataManager

/-! ## Go string helpers used by the embedded code -/

/-- Go `strings.Join(elems, sep)`: the elements in order with `sep` between neighbours. -/
def Join : List String → String → String
  | [], _ => ""
  | [a], _ => a
  | a :: b :: rest, sep => a ++ sep ++ Join (b :: rest) sep

/-- Character-level worker of `Split`: cuts at every occurrence of the one-character
separator, keeping empty pieces; an input without the separator is one piece. -/
def splitChars (sep : Char) : List Char → List (List Char)
  | [] => [[]]
  | c :: cs =>
    if c = sep then [] :: splitChars sep cs
    else
      match splitChars sep cs with
      | [] => [[c]]
      | w :: ws => (c :: w) :: ws

/-- Go `strings.Split(s, ",")`, the only separator the embedded code uses. -/
def Split (s : String) : List String :=
  (splitChars ',' s.data).map String.mk

/-! ## runtime/config.go -/

/-- The `table interface{}` argument: a table id given as a string, or a typed
schema object (identified here by a label). -/
inductive TableRef where
  | named (id : String)
  | typed (schema : String)
  deriving DecidableEq, Repr

/-- Go `runtime.Table`. -/
structure Table where
  TableID : String
  TableName : String
  IsListen : Bool
  deriving DecidableEq, Repr

/-- Go `runtime.Fields`. -/
structure Fields where
  FieldID : String
  FieldName : String
  deriving DecidableEq, Repr

/-- Go `runtime.TablePolicy` (also `request.TablePolicy`). -/
structure TablePolicy where
  Table : TableRef
  MinLogNum : Int := 0
  Outdate : Int := 0
  RelaField : String := ""
  Relations : String := ""
  SenseFields : List String := []
  IgnoreFields : List String := []
  deriving DecidableEq, Repr

/-- Go `runtime.RuntimeConfig`. `DB` and `Handler` are nil-able handles. -/
structure RuntimeConfig where
  Outdate : Int
  MinLogNum : Int
  TempLogTable : String
  PerReadNum : Int
  ReadPolicy : String
  WritePolicy : String
  LogDataPath : String
  DB : Option Nat
  Handler : Option Nat
  RegisterTable : List TablePolicy
  deriving DecidableEq, Repr

/-- The zero value `&RuntimeConfig{}`. -/
def RuntimeConfig.zero : RuntimeConfig :=
  { Outdate := 0, MinLogNum := 0, TempLogTable := "", PerReadNum := 0, ReadPolicy := "",
    WritePolicy := "", LogDataPath := "", DB := none, Handler := none, RegisterTable := [] }

/-- Go `RuntimeConfigOpt = func(*RuntimeConfig)`: an in-place update of the config. -/
abbrev RuntimeConfigOpt := RuntimeConfig → RuntimeConfig

/-- The loop `for _, opt := range opts { opt(conf) }` over the zero config. -/
def applyOpts (opts : List RuntimeConfigOpt) : RuntimeConfig :=
  opts.foldl (fun conf opt => opt conf) RuntimeConfig.zero

/-- Lines 59-61 of config.go: `if conf.Outdate <= 0 { conf.Outdate = 10 }`. -/
def fixOutdate (conf : RuntimeConfig) : RuntimeConfig :=
  if conf.Outdate ≤ 0 then { conf with Outdate := 10 } else conf

/-- Lines 62-64: `if conf.MinLogNum <= 0 { conf.MinLogNum = 10 }`. -/
def fixMinLogNum (conf : RuntimeConfig) : RuntimeConfig :=
  if conf.MinLogNum ≤ 0 then { conf with MinLogNum := 10 } else conf

/-- Lines 65-67: `if conf.TempLogTable == "" { conf.TempLogTable = "_action_log" }`. -/
def fixTempLogTable (conf : RuntimeConfig) : RuntimeConfig :=
  if conf.TempLogTable = "" then { conf with TempLogTable := "_action_log" } else conf

/-- Lines 68-70: `if conf.PerReadNum <= 0 { conf.PerReadNum = 1000 }`. -/
def fixPerReadNum (conf : RuntimeConfig) : RuntimeConfig :=
  if conf.PerReadNum ≤ 0 then { conf with PerReadNum := 1000 } else conf

/-- Lines 71-73: `if conf.ReadPolicy == "" { conf.ReadPolicy = "trigger" }`. -/
def fixReadPolicy (conf : RuntimeConfig) : RuntimeConfig :=
  if conf.ReadPolicy = "" then { conf with ReadPolicy := "trigger" } else conf

/-- Lines 74-76: `if conf.WritePolicy == "" { conf.WritePolicy = "leveldb" }`. -/
def fixWritePolicy (conf : RuntimeConfig) : RuntimeConfig :=
  if conf.WritePolicy = "" then { conf with WritePolicy := "leveldb" } else conf

/-- Lines 77-79: `if conf.LogDataPath == "" { conf.LogDataPath = "./version" }`. -/
def fixLogDataPath (conf : RuntimeConfig) : RuntimeConfig :=
  if conf.LogDataPath = "" then { conf with LogDataPath := "./version" } else conf

/-- The seven `if` statements shared by `NewRuntimeConfig` and the closure of `Initial`,
in source order. -/
def normalise (conf : RuntimeConfig) : RuntimeConfig :=
  fixLogDataPath (fixWritePolicy (fixReadPolicy (fixPerReadNum
    (fixTempLogTable (fixMinLogNum (fixOutdate conf))))))

/-- Go `runtime.NewRuntimeConfig(opts...)`. -/
def NewRuntimeConfig (opts : List RuntimeConfigOpt) : RuntimeConfig :=
  normalise (applyOpts opts)

/-- The closure `Initial` hands to `R.SetConfig`: the same normalisation, then the
handler falls back to `DefaultHandler`. It never returns an error. -/
def Initial.conf (DefaultHandler : Nat) (opts : List RuntimeConfigOpt) : RuntimeConfig :=
  let conf := normalise (applyOpts opts)
  if conf.Handler = none then { conf with Handler := some DefaultHandler } else conf

/-- What the documentation promises for one integer option. -/
def intOrDefault (v d : Int) : Int := if 0 < v then v else d

/-- What the documentation promises for one string option. -/
def strOrDefault (v d : String) : String := if v ≠ "" then v else d

/-! ## service/dblog/meta.go: data model -/

/-- Go `dblog_model.Policy`, with the fields the literal in `buildPolicy` sets. -/
structure Policy where
  TableName : String
  PrimaryFields : String
  Fields : String
  MinLogNum : Int
  Outdate : Int
  RelaField : String
  Relations : String
  deriving DecidableEq, Repr

/-- The pair `([]map[string]interface{}, error)` the log queries return: a nil-able
slice of records (a record is kept as its rendering) and a nil-able error. -/
structure LogResult where
  rows : Option (List String)
  err : Option String
  deriving DecidableEq, Repr

/-- A call made on `ServiceGroupApp.Logger`, with its arguments. -/
inductive LoggerCall where
  | SetSenseFields (tableName : String) (fields : List String)
  | GetAllLogger (tableName : String) (primaryFields : List String)
      (startTime endTime : Option Nat) (page pageSize : Int)
  | GetLogger (tableName recordID : String) (startTime endTime : Option Nat)
      (page pageSize : Int)
  deriving DecidableEq, Repr

/-- A value of `map[string]interface{}`: an `int`, a `[]string` (nil or not), or a value
of some other dynamic type. -/
inductive Value where
  | int (v : Int)
  | strings (v : Option (List String))
  | other (rendering : String)
  deriving DecidableEq, Repr

/-- The section `global.G_CONFIG.DataLog` of the configuration file. -/
structure DataLogConfig where
  LogTableName : String
  OutDate : Int
  MinLogNum : Int
  deriving DecidableEq, Repr

/-- The collaborators of `MetaService` whose code is outside the embedded files, as
oracles: `global.G_StructHandler` (`GetTables`, `GetFields`), `global.G_DATADB`
(`GetTableName`, `GetPrimary`, the trigger calls and `DB.Save`, each giving the error it
returns, `none` for nil), the failure of the two `PolicyRepo` calls, and the two log
queries of `ServiceGroupApp.Logger`. -/
structure Env where
  GetTables : List Table
  GetFields : String → List Fields
  GetTableName : TableRef → String
  GetPrimary : String → Except String (List String)
  CreateTrigger : String → String → Option String
  CreateEventTrigger : String → String → Option String
  DeleteTrigger : String → Option String
  CreateNoExistErr : Policy → Option String
  DeleteByTableNameErr : String → Option String
  Save : Policy → Option String
  GetAllLogger : String → List String → Option Nat → Option Nat → Int → Int → LogResult
  GetLogger : String → String → Option Nat → Option Nat → Int → Int → LogResult

/-- Go `MetaService`. `allPolicy` is the `*sync.Map` from table name to `*Policy`, kept
as an association list; `Range` visits it in list order (Go leaves the order open). -/
structure MetaService where
  OutDate : Int
  MinLogNum : Int
  LogTableName : String
  allPolicy : List (String × Policy)
  deriving DecidableEq, Repr

/-- The service together with what its calls act on: the persisted policy table, the
row triggers and event triggers installed in the source database (name and body), the
schema objects handed to `AutoMigrate`, and the calls received by the logger. -/
structure State where
  svc : MetaService
  policyTable : List Policy
  triggers : List (String × String)
  eventTriggers : List (String × String)
  migrated : List TableRef
  loggerCalls : List LoggerCall
  deriving DecidableEq, Repr

/-- Go `sync.Map.Load`. -/
def Load (m : List (String × Policy)) (key : String) : Option Policy :=
  m.lookup key

/-- Go `sync.Map.Delete`. -/
def Delete (m : List (String × Policy)) (key : String) : List (String × Policy) :=
  m.filter (fun e => e.1 != key)

/-- Go `sync.Map.Store`: the key is bound to the new value only. -/
def Store (m : List (String × Policy)) (key : String) (value : Policy) :
    List (String × Policy) :=
  Delete m key ++ [(key, value)]

/-- Modelled from the spec: `PolicyRepo.CreateNoExist` (package `model/dblog`, not among
the embedded files), section 4.3: insert if no row matches `where`, otherwise no-op.
The `where` of the one caller is `table_name = tableName`. -/
def CreateNoExist (rows : List Policy) (policy : Policy) (tableName : String) : List Policy :=
  if rows.any (fun r => r.TableName == tableName) then rows else rows ++ [policy]

/-- Modelled from the spec: `PolicyRepo.DeleteByTableName` (package `model/dblog`),
section 4.3 `DeleteByTable(name)`: the rows of that table are removed. -/
def DeleteByTableName (rows : List Policy) (tableName : String) : List Policy :=
  rows.filter (fun r => r.TableName != tableName)

/-- The effect of a successful `DB.Save(policy)` on the policy table: the row of the
policy's table is replaced by the policy, or added when there is none. -/
def saveRow (rows : List Policy) (policy : Policy) : List Policy :=
  if rows.any (fun r => r.TableName == policy.TableName) then
    rows.map (fun r => if r.TableName == policy.TableName then policy else r)
  else rows ++ [policy]

/-- Modelled from the spec: `CreateTrigger`/`CreateEventTrigger` of the driver, section
4.1: idempotent, drop-if-exists then create, so one body is installed under the name. -/
def installTrigger (ts : List (String × String)) (name body : String) :
    List (String × String) :=
  ts.filter (fun t => t.1 != name) ++ [(name, body)]

/-- Modelled from the spec: `DeleteTrigger(name)` of the driver, section 4.1. -/
def dropTrigger (ts : List (String × String)) (name : String) : List (String × String) :=
  ts.filter (fun t => t.1 != name)

/-- Go `fmt.Sprintf("%v", table)` for a table argument. -/
def fmtV : TableRef → String
  | .named id => id
  | .typed schema => schema

/-! ## service/dblog/meta.go: SQL bodies of `buildTrigger` -/

/-- The first `fmt.Sprintf` of `buildTrigger`: function and row trigger of one table. -/
def rowTriggerSQL (funcName logTableName tableName triggerName : String) : String :=
  "\n\t\tcreate or replace FUNCTION " ++
    funcName ++
    " RETURNS trigger\n\t\tLANGUAGE plpgsql\n\t    AS $$\n\t    declare logjson json;\n\t    BEGIN\n\t        --只有update的时候有OLD，所以必须判断操作类型为UPDATE\n\t        IF (TG_OP = \x27UPDATE\x27) THEN\n\t            --如果用户名被修改了，就插入到日志，并记录新、旧名字\n\t        \tSELECT json_build_object(\n\t                \x27before\x27, json_agg(old),\n\t                \x27after\x27, json_agg(new)\n\t            ) into logjson;\n\t            INSERT INTO \"" ++
    logTableName ++
    "\" (\"table_name\", \"log\", \"action\", \"time\") VALUES (\x27" ++
    tableName ++
    "\x27, logjson, \x27update\x27 , CURRENT_TIMESTAMP);\n\t        END IF;\n\t        IF (TG_OP = \x27DELETE\x27) then\n\t        \tselect json_build_object(\x27data\x27, json_agg(old)) into logjson;\n\t            INSERT INTO \"" ++
    logTableName ++
    "\" (\"table_name\", \"log\", \"action\", \"time\") VALUES (\x27" ++
    tableName ++
    "\x27, logjson, \x27delete\x27, CURRENT_TIMESTAMP);\n\t        END IF;\n\t        IF (TG_OP = \x27INSERT\x27) then\n\t        \tselect json_build_object(\x27data\x27, json_agg(new)) into logjson;\n\t            INSERT INTO \"" ++
    logTableName ++
    "\" (\"table_name\", \"log\", \"action\", \"time\") VALUES (\x27" ++
    tableName ++
    "\x27, logjson, \x27insert\x27, CURRENT_TIMESTAMP);\n\t        END IF;\n\t    RETURN NEW;\n\tEND$$;\n\n\tcreate trigger " ++
    triggerName ++
    " after insert or update or delete on \"" ++
    tableName ++
    "\" for each row execute procedure " ++
    funcName ++
    ";\n\t\t"

/-- The second `fmt.Sprintf` of `buildTrigger`: the `ddl_command_end` event trigger. -/
def ddlEndSQL (logTableName : String) : String :=
  "\n\tCREATE EXTENSION IF NOT EXISTS hstore;\n\tCREATE OR REPLACE FUNCTION ddl_end_log_function()     \n\t  RETURNS event_trigger                    \n\t LANGUAGE plpgsql  \n\t  AS $$  \n\t  declare \n\t\t\t rec hstore;  \n\t\t\t logjson json;\n\t\t\t t varchar(255);\n\tBEGIN  \n\t  select hstore(pg_stat_activity.*) into rec from pg_stat_activity where pid=pg_backend_pid();\n\t  t := SPLIT_PART((select object_identity FROM pg_event_trigger_ddl_commands() where object_type = \x27table\x27), \x27.\x27, 2);\n\t  select json_build_object(\x27data\x27, json_agg(rec->\x27query\x27)) into logjson;\n\n\t  insert into " ++
    logTableName ++
    " (\"table_name\", \"log\", \"action\", \"time\") \n\t  values (t, logjson, \x27ddl\x27, CURRENT_TIMESTAMP); \n\t END;  \n\t$$; \n\tcreate EVENT TRIGGER ddl_end_log_trigger ON ddl_command_end when TAG IN (\x27CREATE TABLE\x27, \x27ALTER TABLE\x27) EXECUTE PROCEDURE ddl_end_log_function();\n\t"

/-- The third `fmt.Sprintf` of `buildTrigger`: the `sql_drop` event trigger. -/
def ddlDropSQL (logTableName : String) : String :=
  "\n\tCREATE EXTENSION IF NOT EXISTS hstore;\n\tCREATE OR REPLACE FUNCTION ddl_drop_log_function()     \n\tRETURNS event_trigger                    \n\tLANGUAGE plpgsql  \n\tAS $$  \n\tdeclare \n\t\trec hstore;  \n\t\tlogjson json;\n\t\tt varchar(255);\n\tBEGIN  \n\tselect hstore(pg_stat_activity.*) into rec from pg_stat_activity where pid=pg_backend_pid();\n\tt := SPLIT_PART((select object_identity FROM pg_event_trigger_dropped_objects() where object_type in (\x27table\x27, \x27table column\x27) limit 1), \x27.\x27, 2);\n\tselect json_build_object(\x27data\x27, json_agg(rec->\x27query\x27)) into logjson;\n\n\tinsert into " ++
    logTableName ++
    " (\"table_name\", \"log\", \"action\", \"time\") \n\tvalues (t, logjson, \x27ddl\x27, CURRENT_TIMESTAMP); \n\tEND;  \n\t$$; \n\tCREATE EVENT TRIGGER ddl_sql_drop_trigger on sql_drop EXECUTE PROCEDURE ddl_drop_log_function();\n\t"

/-! ## service/dblog/meta.go: operations -/

/-- Go `MetaService.Init`: the `OutDate <= 0` default of 15 is assigned and then both
retention defaults are overwritten from the configuration. -/
def Init (cfg : DataLogConfig) (s : MetaService) : MetaService :=
  let s := if s.LogTableName = "" then { s with LogTableName := cfg.LogTableName } else s
  let s := if s.OutDate ≤ 0 then { s with OutDate := 15 } else s
  let s := { s with allPolicy := [] }
  let s := { s with OutDate := cfg.OutDate }
  { s with MinLogNum := cfg.MinLogNum }

/-- Go `MetaService.registerCheck`: a string must be the id of a catalog table; any
other value is migrated and accepted. -/
def registerCheck (env : Env) (st : State) (table : TableRef) : Bool × State :=
  match table with
  | .named val => (env.GetTables.any (fun item => item.TableID == val), st)
  | .typed _ => (true, { st with migrated := st.migrated ++ [table] })

/-- The slice `fieldsStr` that `buildPolicy` fills (lines 166-184): the catalog field
ids when no sense fields are given, the given sense fields otherwise, skipping in both
cases every key of `ignoreMapping`. -/
def fieldsStr (allFields : List Fields) (pol : TablePolicy) : List String :=
  let ignoreMapping := pol.IgnoreFields
  if pol.SenseFields.length = 0 ∨ pol.SenseFields.head? = some "" then
    (allFields.filter (fun item => !ignoreMapping.contains item.FieldID)).map
      (fun item => item.FieldID)
  else
    pol.SenseFields.filter (fun item => !ignoreMapping.contains item)

/-- Go `MetaService.buildPolicy`: the policy of a new table, persisted with
`CreateNoExist` and stored in the cache. -/
def buildPolicy (env : Env) (st : State) (tableName : String) (min_log_num outdate : Int)
    (pol : TablePolicy) : Except String Policy × State :=
  let min_log_num := if min_log_num < st.svc.MinLogNum then st.svc.MinLogNum else min_log_num
  let outdate := if outdate < st.svc.OutDate then st.svc.OutDate else outdate
  match env.GetPrimary tableName with
  | .error err => (.error err, st)
  | .ok primary =>
    let primaryFields := Join primary ","
    let allFields := env.GetFields tableName
    let policy : Policy :=
      { TableName := tableName
        PrimaryFields := primaryFields
        Fields := Join (fieldsStr allFields pol) ","
        MinLogNum := min_log_num
        Outdate := outdate
        RelaField := pol.RelaField
        Relations := pol.Relations }
    match env.CreateNoExistErr policy with
    | some err => (.error err, st)
    | none =>
      let st := { st with policyTable := CreateNoExist st.policyTable policy tableName }
      (.ok policy, { st with svc := { st.svc with allPolicy := Store st.svc.allPolicy tableName policy } })

/-- Go `MetaService.buildTrigger`: the row trigger of the table, then the two event
triggers; the first failing call ends it. -/
def buildTrigger (env : Env) (st : State) (tableName : String) : Option String × State :=
  let funcName := tableName ++ "_auto_log_recored()"
  let triggerName := tableName ++ "_auto_log_trigger"
  let body := rowTriggerSQL funcName st.svc.LogTableName tableName triggerName
  match env.CreateTrigger body triggerName with
  | some err => (some err, st)
  | none =>
    let st := { st with triggers := installTrigger st.triggers triggerName body }
    let body := ddlEndSQL st.svc.LogTableName
    match env.CreateEventTrigger body "ddl_end_log_trigger" with
    | some err => (some err, st)
    | none =>
      let st := { st with eventTriggers := installTrigger st.eventTriggers "ddl_end_log_trigger" body }
      let body := ddlDropSQL st.svc.LogTableName
      match env.CreateEventTrigger body "ddl_sql_drop_trigger" with
      | some err => (some err, st)
      | none =>
        (none, { st with eventTriggers := installTrigger st.eventTriggers "ddl_sql_drop_trigger" body })

/-- Go `MetaService.RegisterWithPolicy`. -/
def RegisterWithPolicy (env : Env) (st : State) (pol : TablePolicy) : Option String × State :=
  let table := pol.Table
  match registerCheck env st table with
  | (false, st) => (some (fmtV table ++ "不合法"), st)
  | (true, st) =>
    let tableName := env.GetTableName table
    if tableName = "" then (some "表名不能为空", st)
    else
      match Load st.svc.allPolicy tableName with
      | some _ => (none, st)
      | none =>
        match buildPolicy env st tableName st.svc.MinLogNum st.svc.OutDate pol with
        | (.error err, st) => (some err, st)
        | (.ok p, st) =>
          let st := { st with loggerCalls :=
            st.loggerCalls ++ [LoggerCall.SetSenseFields tableName (Split p.Fields)] }
          match buildTrigger env st tableName with
          | (some err, st) => (some err, st)
          | (none, st) => (none, st)

/-- Go `MetaService.Register`: the two retention arguments are not passed on. -/
def Register (env : Env) (st : State) (table : TableRef) (min_log_num outdate : Int)
    (fields ignoreFields : List String) : Option String × State :=
  let _ := min_log_num
  let _ := outdate
  RegisterWithPolicy env st { Table := table, SenseFields := fields, IgnoreFields := ignoreFields }

/-- Go `MetaService.AddTable`: the error of the registration is dropped. -/
def AddTable (env : Env) (st : State) (table : TableRef) (senseFields ignoreFields : List String) :
    State :=
  (RegisterWithPolicy env st
    { Table := table, SenseFields := senseFields, IgnoreFields := ignoreFields }).2

/-- Go `MetaService.UnRegister`. -/
def UnRegister (env : Env) (st : State) (table : String) : Option String × State :=
  let st := (registerCheck env st (.named table)).2
  match env.DeleteByTableNameErr table with
  | some _ => (some "删除记录失败", st)
  | none =>
    let st := { st with policyTable := DeleteByTableName st.policyTable table }
    match env.DeleteTrigger (table ++ "_auto_log_trigger") with
    | some _ => (some "删除触发器失败", st)
    | none =>
      let st := { st with triggers := dropTrigger st.triggers (table ++ "_auto_log_trigger") }
      (none, { st with svc := { st.svc with allPolicy := Delete st.svc.allPolicy table } })

/-- Go `MetaService.ListTable`: the table name of every cached policy. -/
def ListTable (st : State) : List String :=
  st.svc.allPolicy.map (fun e => e.2.TableName)

/-- Go `MetaService.ListTableAllLog`. -/
def ListTableAllLog (env : Env) (st : State) (tableName : String)
    (startTime endTime : Option Nat) (page pageSize : Int) : LogResult × State :=
  match Load st.svc.allPolicy tableName with
  | none => ({ rows := none, err := some (tableName ++ "未进行监听") }, st)
  | some policy =>
    let primaryFields := Split policy.PrimaryFields
    (env.GetAllLogger tableName primaryFields startTime endTime page pageSize,
      { st with loggerCalls := st.loggerCalls ++
          [LoggerCall.GetAllLogger tableName primaryFields startTime endTime page pageSize] })

/-- Go `MetaService.ListTableLog`. -/
def ListTableLog (env : Env) (st : State) (tableName recordID : String)
    (startTime endTime : Option Nat) (page pageSize : Int) : LogResult × State :=
  match Load st.svc.allPolicy tableName with
  | none => ({ rows := none, err := some (tableName ++ "未进行监听") }, st)
  | some _ =>
    (env.GetLogger tableName recordID startTime endTime page pageSize,
      { st with loggerCalls := st.loggerCalls ++
          [LoggerCall.GetLogger tableName recordID startTime endTime page pageSize] })

/-- The tail shared by the four `Modify` functions: the policy was changed through its
pointer, so the cache holds the new value whatever `DB.Save` answers; the row is
rewritten when `Save` succeeds, and the error of `Save` is returned. -/
def savePolicy (env : Env) (st : State) (tableName : String) (policy : Policy) :
    Option String × State :=
  let st := { st with svc := { st.svc with
    allPolicy := st.svc.allPolicy.map (fun e => if e.1 == tableName then (e.1, policy) else e) } }
  match env.Save policy with
  | some err => (some err, st)
  | none => (none, { st with policyTable := saveRow st.policyTable policy })

/-- Lines 388-396 of `ModifyPolicy`: the three type assertions on `args` and the
assignments through the policy pointer, in source order. -/
def applyArgs (policy : Policy) (args : List (String × Value)) : Policy :=
  let policy :=
    match args.lookup "out_date" with
    | some (.int val) => if val ≠ 0 then { policy with Outdate := val } else policy
    | _ => policy
  let policy :=
    match args.lookup "fields" with
    | some (.strings (some val)) => { policy with Fields := Join val "," }
    | _ => policy
  let policy :=
    match args.lookup "min_log_num" with
    | some (.int val) => if val ≠ 0 then { policy with MinLogNum := val } else policy
    | _ => policy
  policy

/-- Go `MetaService.ModifyPolicy`. -/
def ModifyPolicy (env : Env) (st : State) (tableName : String) (args : List (String × Value)) :
    Option String × State :=
  match Load st.svc.allPolicy tableName with
  | none => (some "表未注册", st)
  | some policy => savePolicy env st tableName (applyArgs policy args)

/-- Go `MetaService.ModifyOutdate`. -/
def ModifyOutdate (env : Env) (st : State) (tableName : String) (outdate : Int) :
    Option String × State :=
  match Load st.svc.allPolicy tableName with
  | none => (some "表未注册", st)
  | some policy =>
    if policy.Outdate = outdate then (none, st)
    else savePolicy env st tableName { policy with Outdate := outdate }

/-- Go `MetaService.ModifyField`. -/
def ModifyField (env : Env) (st : State) (tableName : String) (fields : List String) :
    Option String × State :=
  match Load st.svc.allPolicy tableName with
  | none => (some "表未注册", st)
  | some policy =>
    let policy := { policy with Fields := Join fields "," }
    let st := { st with loggerCalls :=
      st.loggerCalls ++ [LoggerCall.SetSenseFields tableName fields] }
    savePolicy env st tableName policy

/-- Go `MetaService.ModifyMinLogNum`. -/
def ModifyMinLogNum (env : Env) (st : State) (tableName : String) (minLogNum : Int) :
    Option String × State :=
  match Load st.svc.allPolicy tableName with
  | none => (some "表未注册", st)
  | some policy => savePolicy env st tableName { policy with MinLogNum := minLogNum }

/-! ## main.go: the manager -/

/-- A `context.Context`. `root` is a context made by the caller (`context.Background()`
or one the caller can cancel); `derived n parent` is the `n`-th context allocated by
`context.WithCancel(parent)`. -/
inductive Ctx where
  | root (n : Nat)
  | derived (n : Nat) (parent : Ctx)
  deriving DecidableEq, Repr

/-- Whether `ctx.Done()` is closed, given the contexts whose cancel function has been
called: cancellation reaches a context from itself or from an ancestor, never from a
descendant. -/
def Ctx.isDone (cancelled : List Ctx) : Ctx → Bool
  | .root n => cancelled.contains (.root n)
  | .derived n parent => cancelled.contains (.derived n parent) || parent.isDone cancelled

/-- Go `dataManager`: `cancel` is kept as the context its call cancels. -/
structure dataManager where
  ctx : Option Ctx
  cancel : Option Ctx
  deriving DecidableEq, Repr

/-- The state of `R = runtime.Runtime` that `Start` touches: the configuration, the
drivers and the queue set so far, and the policies handed to the watcher. -/
structure Runtime where
  config : RuntimeConfig
  db : Option Nat
  logDB : Option Nat
  backQueue : Bool
  watched : List TablePolicy
  deriving DecidableEq, Repr

/-- The goroutine launched by `Start`: the context whose `Done()` its `select` reads,
and whether it is still in its loop. -/
structure Writer where
  watch : Ctx
  running : Bool
  deriving DecidableEq, Repr

/-- The process around the manager: the singleton, the runtime, the contexts cancelled
so far, the allocation counter of `context.WithCancel`, the launched writer goroutines,
the records waiting in the watcher channel and the records the saver has received. -/
structure World where
  d : dataManager
  R : Runtime
  cancelled : List Ctx
  nextCtx : Nat
  writers : List Writer
  ch : List String
  saved : List String
  deriving DecidableEq, Repr

/-- How a call ends: it returns an `error` (`none` for nil) or it panics. -/
inductive Outcome where
  | returned (err : Option String)
  | panicked (msg : String)
  deriving DecidableEq, Repr

/-- What `Start` calls outside the embedded files: the three setters of the runtime,
each given the closure `Start` builds and answering with the error it returns, and the
file-system and driver constructors those closures use. -/
structure MainEnv where
  SetDB : (Runtime → Except String Nat × Runtime) → Runtime → Option String × Runtime
  SetLogDB : (Runtime → Except String Nat) → Runtime → Option String × Runtime
  SetBackQueue : (Runtime → Except String Unit) → Runtime → Option String × Runtime
  InitWithDB : Nat → Nat
  MkdirAll : String → Option String
  NewLevelDBDriver : String → Except String Nat

/-- The closure `Start` passes to `R.SetDB` (lines 71-79). -/
def Start.dbClosure (env : MainEnv) (db : Option Nat) (r : Runtime) :
    Except String Nat × Runtime :=
  let r := if db ≠ none then { r with config := { r.config with DB := db } } else r
  match r.config.DB with
  | none => (.error "未传入db", r)
  | some handle => (.ok (env.InitWithDB handle), r)

/-- The closure `Start` passes to `R.SetLogDB` (lines 84-94). -/
def Start.logDBClosure (env : MainEnv) (r : Runtime) : Except String Nat :=
  let logPath := r.config.LogDataPath
  match env.MkdirAll logPath with
  | some err => .error err
  | none =>
    match env.NewLevelDBDriver logPath with
    | .error err => .error err
    | .ok driver => .ok driver

/-- The closure `Start` passes to `R.SetBackQueue` (lines 99-101). -/
def Start.queueClosure (_r : Runtime) : Except String Unit := .ok ()

/-- Go `dataManager.Start`. The goroutine of lines 112-123 is launched with
`watch := ctx`, the parameter that its `select` reads, not the derived `d.ctx`. -/
def Start (env : MainEnv) (w : World) (db : Option Nat) (ctx : Option Ctx) : Outcome × World :=
  if w.d.ctx ≠ none then (.returned (some "已经启动过"), w)
  else
    match env.SetDB (Start.dbClosure env db) w.R with
    | (some err, r) => (.returned (some err), { w with R := r })
    | (none, r) =>
      match env.SetLogDB (Start.logDBClosure env) r with
      | (some err, r) => (.returned (some err), { w with R := r })
      | (none, r) =>
        match env.SetBackQueue Start.queueClosure r with
        | (some err, r) => (.returned (some err), { w with R := r })
        | (none, r) =>
          let r := { r with watched := r.watched ++ r.config.RegisterTable }
          match ctx with
          | none => (.panicked "cannot create context from nil parent", { w with R := r })
          | some parent =>
            let child := Ctx.derived w.nextCtx parent
            (.returned none,
              { w with
                R := r
                d := { ctx := some child, cancel := some child }
                nextCtx := w.nextCtx + 1
                writers := w.writers ++ [{ watch := parent, running := true }] })

/-- Go `dataManager.Stop`: calls `d.cancel`, which is nil before a successful `Start`. -/
def Stop (w : World) : Outcome × World :=
  match w.d.cancel with
  | none => (.panicked "invalid memory address or nil pointer dereference", w)
  | some c => (.returned none, { w with cancelled := c :: w.cancelled })

/-- The two cases of the `select` in the writer loop. -/
inductive SelectCase where
  | recv
  | done
  deriving DecidableEq, Repr

/-- One pass of the loop of writer `i` through the chosen `select` case; `none` when
the writer has left its loop or the case is not ready. `recv` takes the next record of
the channel and hands it to `saver.Write`; `done` needs `ctx.Done()` closed and returns. -/
def writerStep (w : World) (i : Nat) (c : SelectCase) : Option World :=
  match w.writers.get? i with
  | none => none
  | some wr =>
    if wr.running = false then none
    else
      match c with
      | .recv =>
        match w.ch with
        | [] => none
        | item :: rest => some { w with ch := rest, saved := w.saved ++ [item] }
      | .done =>
        if wr.watch.isDone w.cancelled then
          some { w with writers := w.writers.set i { wr with running := false } }
        else none

/-- The calls a client makes on the manager, in the order it makes them. -/
inductive MgrCall where
  | start (db : Option Nat) (ctx : Option Ctx)
  | stop
  deriving DecidableEq, Repr

/-- One call on the manager. -/
def MgrCall.run (env : MainEnv) (w : World) : MgrCall → Outcome × World
  | .start db ctx => Start env w db ctx
  | .stop => Stop w

/-- A sequence of calls on the manager, each continuing from the state the previous
one left. -/
def runCalls (env : MainEnv) (w : World) (calls : List MgrCall) : World :=
  calls.foldl (fun w c => (c.run env w).2) w

/-- A runtime whose setters call the closure once, keep its value and return its
error; the directory and the store can always be opened. -/
def MainEnv.callOnce : MainEnv where
  SetDB := fun f r =>
    match f r with
    | (.error err, r) => (some err, r)
    | (.ok driver, r) => (none, { r with db := some driver })
  SetLogDB := fun f r =>
    match f r with
    | .error err => (some err, r)
    | .ok driver => (none, { r with logDB := some driver })
  SetBackQueue := fun f r =>
    match f r with
    | .error err => (some err, r)
    | .ok _ => (none, { r with backQueue := true })
  InitWithDB := fun handle => handle
  MkdirAll := fun _ => none
  NewLevelDBDriver := fun _ => .ok 0

/-- The process before any call: nothing started, nothing cancelled, the configuration
of `Initial` without options. -/
def World.fresh : World where
  d := { ctx := none, cancel := none }
  R := { config := Initial.conf 0 [], db := none, logDB := none, backQueue := false, watched := [] }
  cancelled := []
  nextCtx := 0
  writers := []
  ch := []
  saved := []

/-- The documented outcome of the normalisation, in the spec's words: an integer option
keeps the caller's value when it is positive, a string option when it is non-empty, and
each takes its documented default otherwise. -/
def Documented (caller result : RuntimeConfig) : Prop :=
  result.Outdate = (if 0 < caller.Outdate then caller.Outdate else 10) ∧
  result.MinLogNum = (if 0 < caller.MinLogNum then caller.MinLogNum else 10) ∧
  result.TempLogTable = (if caller.TempLogTable ≠ "" then caller.TempLogTable else "_action_log") ∧
  result.PerReadNum = (if 0 < caller.PerReadNum then caller.PerReadNum else 1000) ∧
  result.ReadPolicy = (if caller.ReadPolicy ≠ "" then caller.ReadPolicy else "trigger") ∧
  result.WritePolicy = (if caller.WritePolicy ≠ "" then caller.WritePolicy else "leveldb") ∧
  result.LogDataPath = (if caller.LogDataPath ≠ "" then caller.LogDataPath else "./version")

/-! ## Spec-side definitions and sample inputs -/

/-- The sensed fields in the spec's words: the base list in its order with every member
of the ignored list removed. -/
def allMinusIgnored (base ignored : List String) : List String :=
  base.filter (fun f => decide (f ∉ ignored))

/-- The field ids of a table in the catalog, in catalog order. -/
def catalog (env : Env) (tableName : String) : List String :=
  (env.GetFields tableName).map (fun item => item.FieldID)

/-- A sample environment: the catalog holds the table `notes (id, created_at, note)`
with primary key `id`, a named table resolves to its id, and every call succeeds. -/
def Env.sample : Env where
  GetTables := [{ TableID := "notes", TableName := "notes", IsListen := false }]
  GetFields := fun t =>
    if t = "notes" then
      [{ FieldID := "id", FieldName := "id" }, { FieldID := "created_at", FieldName := "created_at" },
        { FieldID := "note", FieldName := "note" }]
    else []
  GetTableName := fmtV
  GetPrimary := fun _ => .ok ["id"]
  CreateTrigger := fun _ _ => none
  CreateEventTrigger := fun _ _ => none
  DeleteTrigger := fun _ => none
  CreateNoExistErr := fun _ => none
  DeleteByTableNameErr := fun _ => none
  Save := fun _ => none
  GetAllLogger := fun _ _ _ _ _ _ => { rows := some [], err := none }
  GetLogger := fun _ _ _ _ _ _ => { rows := some [], err := none }

/-- The sample environment with a database that refuses to create the row trigger. -/
def Env.noTrigger : Env :=
  { Env.sample with CreateTrigger := fun _ _ => some "create trigger failed" }

/-- The service after `Init` with retention defaults 10 and 10, nothing registered. -/
def State.initial : State where
  svc := Init { LogTableName := "_action_log", OutDate := 10, MinLogNum := 10 }
    { OutDate := 0, MinLogNum := 0, LogTableName := "", allPolicy := [] }
  policyTable := []
  triggers := []
  eventTriggers := []
  migrated := []
  loggerCalls := []

/-- The policy `buildPolicy` gives `notes` in the sample environment with no sense
fields and nothing ignored. -/
def Policy.notes : Policy where
  TableName := "notes"
  PrimaryFields := "id"
  Fields := "id,created_at,note"
  MinLogNum := 10
  Outdate := 10
  RelaField := ""
  Relations := ""

/-- The initial service with `notes` registered. -/
def State.withNotes : State :=
  { State.initial with
    svc := { State.initial.svc with allPolicy := [("notes", Policy.notes)] }
    policyTable := [Policy.notes] }

/-- The number of `WithCancel` derivations above a context. -/
def Ctx.depth : Ctx → Nat
  | .root _ => 0
  | .derived _ parent => parent.depth + 1

/-- The started sample process: a fresh manager after `Start(db, ctx)` with a database
handle and a parent context that nobody cancels. -/
def World.started : World :=
  (Start MainEnv.callOnce World.fresh (some 1) (some (Ctx.root 0))).2

/-- The key of every cached policy is the policy's table name, as `buildPolicy` and
`InitApp` store it. -/
def KeysMatch (st : State) : Prop :=
  ∀ e ∈ st.svc.allPolicy, e.2.TableName = e.1

/-- The policy `RegisterWithPolicy` has built and stored by the time it reaches
`buildTrigger`, for a table that is not in the cache: `none` when the call ends before
(the table fails `registerCheck`, has an empty name, or `buildPolicy` fails). -/
def builtPolicy (env : Env) (st : State) (pol : TablePolicy) : Option Policy :=
  if (registerCheck env st pol.Table).1 = true ∧ env.GetTableName pol.Table ≠ "" then
    match (buildPolicy env (registerCheck env st pol.Table).2 (env.GetTableName pol.Table)
        st.svc.MinLogNum st.svc.OutDate pol).1 with
    | .ok p => some p
    | .error _ => none
  else none

/-! ## Registry operations as data -/

/-- A call on the policy registry. -/
inductive RegistryOp where
  | registerWithPolicy (pol : TablePolicy)
  | unRegister (table : String)
  | modifyPolicy (tableName : String) (args : List (String × Value))
  | modifyOutdate (tableName : String) (outdate : Int)
  | modifyField (tableName : String) (fields : List String)
  | modifyMinLogNum (tableName : String) (minLogNum : Int)
  deriving DecidableEq, Repr

/-- The call carried out. -/
def RegistryOp.run (env : Env) (st : State) : RegistryOp → Option String × State
  | .registerWithPolicy pol => RegisterWithPolicy env st pol
  | .unRegister table => UnRegister env st table
  | .modifyPolicy tableName args => ModifyPolicy env st tableName args
  | .modifyOutdate tableName outdate => ModifyOutdate env st tableName outdate
  | .modifyField tableName fields => ModifyField env st tableName fields
  | .modifyMinLogNum tableName minLogNum => ModifyMinLogNum env st tableName minLogNum

/-- A sequence of registry calls, each in its own environment and continuing from the
state the previous one left. -/
def runOps (steps : List (Env × RegistryOp)) (st : State) : State :=
  steps.foldl (fun st step => (step.2.run step.1 st).2) st

/-- The cache entry a registry call writes, if it writes one. -/
def RegistryOp.stored (env : Env) (st : State) : RegistryOp → Option (String × Policy)
  | .registerWithPolicy pol =>
    match Load st.svc.allPolicy (env.GetTableName pol.Table) with
    | some _ => none
    | none => (builtPolicy env st pol).map (fun p => (env.GetTableName pol.Table, p))
  | .unRegister _ => none
  | .modifyPolicy tableName args =>
    (Load st.svc.allPolicy tableName).map (fun p => (tableName, applyArgs p args))
  | .modifyOutdate tableName outdate =>
    (Load st.svc.allPolicy tableName).map (fun p => (tableName, { p with Outdate := outdate }))
  | .modifyField tableName fields =>
    (Load st.svc.allPolicy tableName).map (fun p => (tableName, { p with Fields := Join fields "," }))
  | .modifyMinLogNum tableName minLogNum =>
    (Load st.svc.allPolicy tableName).map (fun p => (tableName, { p with MinLogNum := minLogNum }))

/-- The registry invariant on retention: every cached policy has `MinLogNum ≥ 1` and
`Outdate ≥ 1`. -/
def RetentionInv (st : State) : Prop :=
  ∀ e ∈ st.svc.allPolicy, 1 ≤ e.2.MinLogNum ∧ 1 ≤ e.2.Outdate

/-- The retention arguments of a call are valid: `ModifyOutdate` and `ModifyMinLogNum`
are given at least 1, and an `int` under `out_date` or `min_log_num` in the arguments of
`ModifyPolicy` is not negative (0 leaves the value as it is). -/
def RegistryOp.retentionArgs : RegistryOp → Prop
  | .modifyPolicy _ args =>
    (∀ v, args.lookup "out_date" = some (.int v) → 0 ≤ v) ∧
    (∀ v, args.lookup "min_log_num" = some (.int v) → 0 ≤ v)
  | .modifyOutdate _ outdate => 1 ≤ outdate
  | .modifyMinLogNum _ minLogNum => 1 ≤ minLogNum
  | _ => True

/-- The registry invariant on sensed fields, for a catalog `cat`: the `Fields` of every
cached policy is the comma-join of a list of columns of the table it is cached under. -/
def FieldsInv (cat : String → List String) (st : State) : Prop :=
  ∀ e ∈ st.svc.allPolicy, ∃ names : List String,
    e.2.Fields = Join names "," ∧ ∀ f ∈ names, f ∈ cat e.1

/-- The field lists a call supplies name catalog columns only: the `SenseFields` of a
registration (when it gives any), the list of `ModifyField`, and a non-nil `[]string`
under `fields` in the arguments of `ModifyPolicy`. -/
def RegistryOp.fieldArgs (cat : String → List String) (env : Env) : RegistryOp → Prop
  | .registerWithPolicy pol =>
    (pol.SenseFields = [] ∨ pol.SenseFields.head? = some "") ∨
      ∀ f ∈ pol.SenseFields, f ∈ cat (env.GetTableName pol.Table)
  | .modifyField tableName fields => ∀ f ∈ fields, f ∈ cat tableName
  | .modifyPolicy tableName args =>
    ∀ val, args.lookup "fields" = some (.strings (some val)) → ∀ f ∈ val, f ∈ cat tableName
  | _ => True

/-! ## Spec-side definitions: the text of the row trigger -/

/-- The statement that writes one event of `tableName` with the given action into the
staging table, up to the action. -/
def insertStmt (logTableName tableName action : String) : String :=
  "INSERT INTO \"" ++ logTableName ++
    "\" (\"table_name\", \"log\", \"action\", \"time\") VALUES (\x27" ++ tableName ++
    "\x27, logjson, \x27" ++ action ++ "\x27"

/-- The statement that creates the row trigger `triggerName` on `tableName`, firing
`funcName`. -/
def createTriggerStmt (triggerName tableName funcName : String) : String :=
  "create trigger " ++ triggerName ++ " after insert or update or delete on \"" ++ tableName ++
    "\" for each row execute procedure " ++ funcName ++ ";"

/-- The opening of the branch of one operation, the text `mid` and then `stmt`. -/
def branchOf (op mid stmt : String) : String :=
  "IF (TG_OP = \x27" ++ op ++ "\x27)" ++ mid ++ stmt

/-- The text `piece` does not occur in `body`. -/
def Lacks (body piece : String) : Prop :=
  ¬ List.IsInfix piece.data body.data

/-! ## Spec-side definitions: comma-joined lists -/

/-- No name of the list contains a comma. -/
def CommaFree (names : List String) : Prop :=
  ∀ s ∈ names, ',' ∉ s.data

/-- The characters of `strings.Join(elems, ",")`, from the characters of the elements. -/
def joinChars : List (List Char) → List Char
  | [] => []
  | [a] => a
  | a :: b :: rest => a ++ ',' :: joinChars (b :: rest)

/-- The sample environment for a table without primary key: `GetPrimary` returns the
empty list and no error. -/
def Env.noPrimary : Env :=
  { Env.sample with GetPrimary := fun _ => .ok [] }

/-! ## service/dblog/meta.go: `ListTable2` -/

/-- The loop `for _, item := range result { tableMapping[item.TableName] = item }` from
position `i` on: the map binds a table name to a pointer into `result`, kept as the
position of the entry; a later assignment to the same key is found first. -/
def buildMapping : Nat → List Table → List (String × Nat) → List (String × Nat)
  | _, [], tableMapping => tableMapping
  | i, item :: rest, tableMapping => buildMapping (i + 1) rest ((item.TableName, i) :: tableMapping)

/-- The assignment `val.IsListen = true` through the pointer to entry `i`. -/
def markListen : Nat → List Table → List Table
  | _, [] => []
  | 0, item :: rest => { item with IsListen := true } :: rest
  | i + 1, item :: rest => item :: markListen i rest

/-- Go `MetaService.ListTable2`: the catalog entries, those found in `tableMapping` under
the table name of a cached policy marked as listened. Each entry of the slice that
`GetTables` returns is taken to be an object of its own. -/
def ListTable2 (env : Env) (st : State) : List Table :=
  let result := env.GetTables
  let tableMapping := buildMapping 0 result []
  st.svc.allPolicy.foldl
    (fun result e =>
      match tableMapping.lookup e.2.TableName with
      | some i => markListen i result
      | none => result)
    result

/-- The position of the last entry with the given table name, counting from `i`. -/
def lastIdx (name : String) : Nat → List Table → Option Nat
  | _, [] => none
  | i, item :: rest =>
    match lastIdx name (i + 1) rest with
    | some j => some j
    | none => if item.TableName = name then some i else none

/-- The catalog with two entries of the same table name `notes`. -/
def Env.twoNotes : Env :=
  { Env.sample with
    GetTables := [{ TableID := "t1", TableName := "notes", IsListen := false },
      { TableID := "t2", TableName := "notes", IsListen := false }] }

/-! ## Theorems: runtime configuration -/

theorem fixOutdate_eq (c : RuntimeConfig) :
    fixOutdate c = { c with Outdate := intOrDefault c.Outdate 10 } := by
  unfold fixOutdate intOrDefault
  by_cases h : c.Outdate ≤ 0
  · have h2 : ¬ (0 < c.Outdate) := by omega
    simp [h, h2]
  · have h2 : 0 < c.Outdate := by omega
    simp [h, h2]

theorem fixMinLogNum_eq (c : RuntimeConfig) :
    fixMinLogNum c = { c with MinLogNum := intOrDefault c.MinLogNum 10 } := by
  unfold fixMinLogNum intOrDefault
  by_cases h : c.MinLogNum ≤ 0
  · have h2 : ¬ (0 < c.MinLogNum) := by omega
    simp [h, h2]
  · have h2 : 0 < c.MinLogNum := by omega
    simp [h, h2]

theorem fixPerReadNum_eq (c : RuntimeConfig) :
    fixPerReadNum c = { c with PerReadNum := intOrDefault c.PerReadNum 1000 } := by
  unfold fixPerReadNum intOrDefault
  by_cases h : c.PerReadNum ≤ 0
  · have h2 : ¬ (0 < c.PerReadNum) := by omega
    simp [h, h2]
  · have h2 : 0 < c.PerReadNum := by omega
    simp [h, h2]

theorem fixTempLogTable_eq (c : RuntimeConfig) :
    fixTempLogTable c = { c with TempLogTable := strOrDefault c.TempLogTable "_action_log" } := by
  unfold fixTempLogTable strOrDefault
  by_cases h : c.TempLogTable = "" <;> simp [h]

theorem fixReadPolicy_eq (c : RuntimeConfig) :
    fixReadPolicy c = { c with ReadPolicy := strOrDefault c.ReadPolicy "trigger" } := by
  unfold fixReadPolicy strOrDefault
  by_cases h : c.ReadPolicy = "" <;> simp [h]

theorem fixWritePolicy_eq (c : RuntimeConfig) :
    fixWritePolicy c = { c with WritePolicy := strOrDefault c.WritePolicy "leveldb" } := by
  unfold fixWritePolicy strOrDefault
  by_cases h : c.WritePolicy = "" <;> simp [h]

theorem fixLogDataPath_eq (c : RuntimeConfig) :
    fixLogDataPath c = { c with LogDataPath := strOrDefault c.LogDataPath "./version" } := by
  unfold fixLogDataPath strOrDefault
  by_cases h : c.LogDataPath = "" <;> simp [h]

/-- The normalisation rewrites exactly the seven documented options, each to the caller's
value when valid and to its default otherwise; the other fields are untouched. -/
theorem normalise_eq (c : RuntimeConfig) :
    normalise c =
      { c with
        Outdate := intOrDefault c.Outdate 10
        MinLogNum := intOrDefault c.MinLogNum 10
        TempLogTable := strOrDefault c.TempLogTable "_action_log"
        PerReadNum := intOrDefault c.PerReadNum 1000
        ReadPolicy := strOrDefault c.ReadPolicy "trigger"
        WritePolicy := strOrDefault c.WritePolicy "leveldb"
        LogDataPath := strOrDefault c.LogDataPath "./version" } := by
  unfold normalise
  rw [fixOutdate_eq, fixMinLogNum_eq, fixTempLogTable_eq, fixPerReadNum_eq,
    fixReadPolicy_eq, fixWritePolicy_eq, fixLogDataPath_eq]

theorem normalise_documented (c : RuntimeConfig) : Documented c (normalise c) := by
  rw [normalise_eq]
  exact ⟨rfl, rfl, rfl, rfl, rfl, rfl, rfl⟩

theorem Initial_conf_fields (h : Nat) (opts : List RuntimeConfigOpt) :
    Documented (applyOpts opts) (Initial.conf h opts) := by
  have hn := normalise_documented (applyOpts opts)
  unfold Initial.conf
  generalize normalise (applyOpts opts) = n at hn ⊢
  by_cases hh : n.Handler = none
  · rw [if_pos hh]
    exact hn
  · rw [if_neg hh]
    exact hn

/-- The option loop over `opts` followed by one more option is that option applied to
what the loop over `opts` left. -/
theorem applyOpts_append (opts : List RuntimeConfigOpt) (opt : RuntimeConfigOpt) :
    applyOpts (opts ++ [opt]) = opt (applyOpts opts) := by
  unfold applyOpts
  rw [List.foldl_append]
  rfl

/-- C1: for every sequence of options, `NewRuntimeConfig` and the closure of `Initial`
return a config in which each of the seven options keeps the value the caller's options
leave on the zero config (the options applied in order, each to the result of the one
before) when that value is valid (positive integer, non-empty string) and otherwise takes
its default (10, 10, "_action_log", 1000, "trigger", "leveldb", "./version"). So when the
caller's last option assigns the seven values of any config `caller`, the result is the
documented one for exactly those values, whatever the earlier options did; and with no
options all seven defaults are returned. -/
theorem NewRuntimeConfig_documented (DefaultHandler : Nat) (opts : List RuntimeConfigOpt) :
    Documented (opts.foldl (fun conf opt => opt conf) RuntimeConfig.zero)
      (NewRuntimeConfig opts) ∧
    Documented (opts.foldl (fun conf opt => opt conf) RuntimeConfig.zero)
      (Initial.conf DefaultHandler opts) ∧
    (∀ caller : RuntimeConfig,
      Documented caller
        (NewRuntimeConfig (opts ++ [fun rc => { rc with
          Outdate := caller.Outdate, MinLogNum := caller.MinLogNum,
          TempLogTable := caller.TempLogTable, PerReadNum := caller.PerReadNum,
          ReadPolicy := caller.ReadPolicy, WritePolicy := caller.WritePolicy,
          LogDataPath := caller.LogDataPath }])) ∧
      Documented caller
        (Initial.conf DefaultHandler (opts ++ [fun rc => { rc with
          Outdate := caller.Outdate, MinLogNum := caller.MinLogNum,
          TempLogTable := caller.TempLogTable, PerReadNum := caller.PerReadNum,
          ReadPolicy := caller.ReadPolicy, WritePolicy := caller.WritePolicy,
          LogDataPath := caller.LogDataPath }]))) ∧
    ((NewRuntimeConfig []).Outdate = 10 ∧ (NewRuntimeConfig []).MinLogNum = 10 ∧
      (NewRuntimeConfig []).TempLogTable = "_action_log" ∧
      (NewRuntimeConfig []).PerReadNum = 1000 ∧ (NewRuntimeConfig []).ReadPolicy = "trigger" ∧
      (NewRuntimeConfig []).WritePolicy = "leveldb" ∧
      (NewRuntimeConfig []).LogDataPath = "./version") ∧
    ((Initial.conf DefaultHandler []).Outdate = 10 ∧
      (Initial.conf DefaultHandler []).MinLogNum = 10 ∧
      (Initial.conf DefaultHandler []).TempLogTable = "_action_log" ∧
      (Initial.conf DefaultHandler []).PerReadNum = 1000 ∧
      (Initial.conf DefaultHandler []).ReadPolicy = "trigger" ∧
      (Initial.conf DefaultHandler []).WritePolicy = "leveldb" ∧
      (Initial.conf DefaultHandler []).LogDataPath = "./version") := by
  have zi : ∀ d : Int, (if 0 < (applyOpts []).Outdate then (applyOpts []).Outdate else d) = d :=
    fun d => if_neg (by decide)
  have zm : ∀ d : Int, (if 0 < (applyOpts []).MinLogNum then (applyOpts []).MinLogNum else d) = d :=
    fun d => if_neg (by decide)
  have zp : ∀ d : Int, (if 0 < (applyOpts []).PerReadNum then (applyOpts []).PerReadNum else d) = d :=
    fun d => if_neg (by decide)
  have zt : ∀ d : String,
      (if (applyOpts []).TempLogTable ≠ "" then (applyOpts []).TempLogTable else d) = d :=
    fun d => if_neg (by decide)
  have zr : ∀ d : String,
      (if (applyOpts []).ReadPolicy ≠ "" then (applyOpts []).ReadPolicy else d) = d :=
    fun d => if_neg (by decide)
  have zw : ∀ d : String,
      (if (applyOpts []).WritePolicy ≠ "" then (applyOpts []).WritePolicy else d) = d :=
    fun d => if_neg (by decide)
  have zl : ∀ d : String,
      (if (applyOpts []).LogDataPath ≠ "" then (applyOpts []).LogDataPath else d) = d :=
    fun d => if_neg (by decide)
  refine ⟨normalise_documented (applyOpts opts), Initial_conf_fields DefaultHandler opts,
    ?_, ?_, ?_⟩
  · intro caller
    constructor
    · have h := normalise_documented (applyOpts (opts ++ [fun rc => { rc with
          Outdate := caller.Outdate, MinLogNum := caller.MinLogNum,
          TempLogTable := caller.TempLogTable, PerReadNum := caller.PerReadNum,
          ReadPolicy := caller.ReadPolicy, WritePolicy := caller.WritePolicy,
          LogDataPath := caller.LogDataPath }]))
      rw [applyOpts_append] at h
      rw [NewRuntimeConfig, applyOpts_append]
      generalize normalise _ = n at h ⊢
      exact h
    · have h := Initial_conf_fields DefaultHandler (opts ++ [fun rc => { rc with
          Outdate := caller.Outdate, MinLogNum := caller.MinLogNum,
          TempLogTable := caller.TempLogTable, PerReadNum := caller.PerReadNum,
          ReadPolicy := caller.ReadPolicy, WritePolicy := caller.WritePolicy,
          LogDataPath := caller.LogDataPath }])
      rw [applyOpts_append] at h
      generalize Initial.conf DefaultHandler _ = n at h ⊢
      exact h
  · obtain ⟨h1, h2, h3, h4, h5, h6, h7⟩ := normalise_documented (applyOpts [])
    exact ⟨h1.trans (zi _), h2.trans (zm _), h3.trans (zt _), h4.trans (zp _),
      h5.trans (zr _), h6.trans (zw _), h7.trans (zl _)⟩
  · obtain ⟨h1, h2, h3, h4, h5, h6, h7⟩ := Initial_conf_fields DefaultHandler []
    exact ⟨h1.trans (zi _), h2.trans (zm _), h3.trans (zt _), h4.trans (zp _),
      h5.trans (zr _), h6.trans (zw _), h7.trans (zl _)⟩

/-- C1 at a concrete call with two options: the first sets `MinLogNum = 25`, the read
policy `notify` and an invalid `Outdate = -3`, the second sets the data path; the valid
values are kept, `Outdate` and the three untouched options take their defaults. -/
theorem NewRuntimeConfig_documented_witness :
    NewRuntimeConfig
        [fun rc => { rc with MinLogNum := 25, ReadPolicy := "notify", Outdate := -3 },
          fun rc => { rc with LogDataPath := "./data" }]
      = { Outdate := 10, MinLogNum := 25, TempLogTable := "_action_log", PerReadNum := 1000,
          ReadPolicy := "notify", WritePolicy := "leveldb", LogDataPath := "./data",
          DB := none, Handler := none, RegisterTable := [] } ∧
    Documented
      { Outdate := -3, MinLogNum := 25, TempLogTable := "", PerReadNum := 0,
        ReadPolicy := "notify", WritePolicy := "", LogDataPath := "./data",
        DB := none, Handler := none, RegisterTable := [] }
      (NewRuntimeConfig
        [fun rc => { rc with MinLogNum := 25, ReadPolicy := "notify", Outdate := -3 },
          fun rc => { rc with LogDataPath := "./data" }]) :=
  ⟨by decide,
    (NewRuntimeConfig_documented 0
      [fun rc => { rc with MinLogNum := 25, ReadPolicy := "notify", Outdate := -3 },
        fun rc => { rc with LogDataPath := "./data" }]).1⟩

/-! ## Theorems: the policy cache -/

theorem Load_cons (a : String) (b : Policy) (m : List (String × Policy)) (k : String) :
    Load ((a, b) :: m) k = if k = a then some b else Load m k := by
  unfold Load
  by_cases h : k = a
  · simp [List.lookup_cons, h]
  · have hk : (k == a) = false := by simpa using h
    simp [List.lookup_cons, hk, h]

theorem Delete_cons (a : String) (b : Policy) (m : List (String × Policy)) (k : String) :
    Delete ((a, b) :: m) k = if a = k then Delete m k else (a, b) :: Delete m k := by
  unfold Delete
  by_cases h : a = k <;> simp [List.filter_cons, h]

theorem Load_Delete_self (m : List (String × Policy)) (k : String) :
    Load (Delete m k) k = none := by
  induction m with
  | nil => rfl
  | cons e m ih =>
    obtain ⟨a, b⟩ := e
    rw [Delete_cons]
    by_cases h : a = k
    · simpa [h] using ih
    · have h2 : ¬ k = a := fun h2 => h h2.symm
      simpa [h, Load_cons, h2] using ih

theorem Load_Delete_ne (m : List (String × Policy)) (k k2 : String) (hne : k2 ≠ k) :
    Load (Delete m k) k2 = Load m k2 := by
  induction m with
  | nil => rfl
  | cons e m ih =>
    obtain ⟨a, b⟩ := e
    rw [Delete_cons]
    by_cases h : a = k
    · subst h
      simpa [Load_cons, hne] using ih
    · by_cases h2 : k2 = a
      · simp [h, Load_cons, h2]
      · simpa [h, Load_cons, h2] using ih

theorem Load_append_single (m : List (String × Policy)) (k k2 : String) (v : Policy) :
    Load (m ++ [(k, v)]) k2 =
      match Load m k2 with
      | some p => some p
      | none => if k2 = k then some v else none := by
  induction m with
  | nil =>
    show Load [(k, v)] k2 = _
    rw [Load_cons]
    rfl
  | cons e m ih =>
    obtain ⟨a, b⟩ := e
    show Load ((a, b) :: (m ++ [(k, v)])) k2 = _
    rw [Load_cons, Load_cons]
    by_cases h2 : k2 = a
    · simp [h2]
    · simpa [h2] using ih

theorem Load_Store_self (m : List (String × Policy)) (k : String) (v : Policy) :
    Load (Store m k v) k = some v := by
  unfold Store
  rw [Load_append_single, Load_Delete_self]
  simp

theorem Load_Store_ne (m : List (String × Policy)) (k k2 : String) (v : Policy)
    (hne : k2 ≠ k) : Load (Store m k v) k2 = Load m k2 := by
  unfold Store
  rw [Load_append_single, Load_Delete_ne m k k2 hne]
  cases Load m k2 <;> simp [hne]

/-- A binding found by `Load` is an entry of the map. -/
theorem Load_mem (m : List (String × Policy)) (k : String) (p : Policy)
    (h : Load m k = some p) : (k, p) ∈ m := by
  induction m with
  | nil => simp [Load] at h
  | cons e m ih =>
    obtain ⟨a, b⟩ := e
    rw [Load_cons] at h
    by_cases h2 : k = a
    · simp [h2] at h
      simp [h2, h]
    · simp [h2] at h
      exact List.mem_cons_of_mem _ (ih h)

/-- A key without binding is the key of no entry. -/
theorem Load_none_not_mem (m : List (String × Policy)) (k : String)
    (h : Load m k = none) : ∀ e ∈ m, e.1 ≠ k := by
  induction m with
  | nil => simp
  | cons e m ih =>
    obtain ⟨a, b⟩ := e
    rw [Load_cons] at h
    by_cases h2 : k = a
    · simp [h2] at h
    · simp [h2] at h
      intro x hx
      rcases List.mem_cons.mp hx with rfl | hx
      · exact fun h3 => h2 h3.symm
      · exact ih h x hx

/-! ## Theorems: log queries -/

/-- C2: `ListTableAllLog` and `ListTableLog` return their own error with a nil result
and without calling the logger if and only if the table has no policy in the registry;
for a registered table they return exactly what the logger returns for the same table,
record id, time window, page and page size (the primary fields being the split of the
policy's `PrimaryFields`), after that one logger call. -/
theorem ListTableLog_error_iff (env : Env) (st : State) (tableName recordID : String)
    (startTime endTime : Option Nat) (page pageSize : Int) :
    (((ListTableAllLog env st tableName startTime endTime page pageSize).1.err ≠ none ∧
        (ListTableAllLog env st tableName startTime endTime page pageSize).1.rows = none ∧
        (ListTableAllLog env st tableName startTime endTime page pageSize).2.loggerCalls
          = st.loggerCalls)
      ↔ Load st.svc.allPolicy tableName = none) ∧
    (((ListTableLog env st tableName recordID startTime endTime page pageSize).1.err ≠ none ∧
        (ListTableLog env st tableName recordID startTime endTime page pageSize).1.rows = none ∧
        (ListTableLog env st tableName recordID startTime endTime page pageSize).2.loggerCalls
          = st.loggerCalls)
      ↔ Load st.svc.allPolicy tableName = none) ∧
    (Load st.svc.allPolicy tableName = none →
      (ListTableAllLog env st tableName startTime endTime page pageSize)
        = ({ rows := none, err := some (tableName ++ "未进行监听") }, st) ∧
      (ListTableLog env st tableName recordID startTime endTime page pageSize)
        = ({ rows := none, err := some (tableName ++ "未进行监听") }, st)) ∧
    (∀ policy, Load st.svc.allPolicy tableName = some policy →
      (ListTableAllLog env st tableName startTime endTime page pageSize).1
        = env.GetAllLogger tableName (Split policy.PrimaryFields) startTime endTime page pageSize ∧
      (ListTableAllLog env st tableName startTime endTime page pageSize).2
        = { st with loggerCalls := st.loggerCalls ++
            [LoggerCall.GetAllLogger tableName (Split policy.PrimaryFields)
              startTime endTime page pageSize] } ∧
      (ListTableLog env st tableName recordID startTime endTime page pageSize).1
        = env.GetLogger tableName recordID startTime endTime page pageSize ∧
      (ListTableLog env st tableName recordID startTime endTime page pageSize).2
        = { st with loggerCalls := st.loggerCalls ++
            [LoggerCall.GetLogger tableName recordID startTime endTime page pageSize] }) := by
  unfold ListTableAllLog ListTableLog
  cases h : Load st.svc.allPolicy tableName with
  | none => simp
  | some p => simp

/-! ## Theorems: building a policy -/

/-- What a successful `buildPolicy` returned and did. -/
theorem buildPolicy_ok (env : Env) (st st2 : State) (tableName : String)
    (min_log_num outdate : Int) (pol : TablePolicy) (p : Policy)
    (h : buildPolicy env st tableName min_log_num outdate pol = (.ok p, st2)) :
    ∃ primary, env.GetPrimary tableName = .ok primary ∧
      p = { TableName := tableName
            PrimaryFields := Join primary ","
            Fields := Join (fieldsStr (env.GetFields tableName) pol) ","
            MinLogNum := if min_log_num < st.svc.MinLogNum then st.svc.MinLogNum else min_log_num
            Outdate := if outdate < st.svc.OutDate then st.svc.OutDate else outdate
            RelaField := pol.RelaField
            Relations := pol.Relations } ∧
      env.CreateNoExistErr p = none ∧
      st2 = { st with
        policyTable := CreateNoExist st.policyTable p tableName
        svc := { st.svc with allPolicy := Store st.svc.allPolicy tableName p } } := by
  unfold buildPolicy at h
  cases hp : env.GetPrimary tableName with
  | error e => simp [hp] at h
  | ok primary =>
    simp only [hp] at h
    split at h
    · simp at h
    · rename_i hc
      simp only [Prod.mk.injEq, Except.ok.injEq] at h
      obtain ⟨h1, h2⟩ := h
      subst h1
      exact ⟨primary, rfl, rfl, hc, h2.symm⟩

/-- A failing `buildPolicy` leaves the state as it was. -/
theorem buildPolicy_error (env : Env) (st st2 : State) (tableName : String)
    (min_log_num outdate : Int) (pol : TablePolicy) (err : String)
    (h : buildPolicy env st tableName min_log_num outdate pol = (.error err, st2)) :
    st2 = st := by
  unfold buildPolicy at h
  cases hp : env.GetPrimary tableName with
  | error e =>
    simp only [hp, Prod.mk.injEq] at h
    exact h.2.symm
  | ok primary =>
    simp only [hp] at h
    split at h
    · simp only [Prod.mk.injEq] at h
      exact h.2.symm
    · simp at h

theorem filter_map_FieldID (allFields : List Fields) (ignored : List String) :
    (allFields.filter (fun item => !ignored.contains item.FieldID)).map (fun item => item.FieldID)
      = allMinusIgnored (allFields.map (fun item => item.FieldID)) ignored := by
  unfold allMinusIgnored
  induction allFields with
  | nil => rfl
  | cons a l ih =>
    by_cases h : a.FieldID ∈ ignored
    · simpa [List.filter_cons, h] using ih
    · simpa [List.filter_cons, h] using ih

theorem filter_contains_eq (fields ignored : List String) :
    fields.filter (fun item => !ignored.contains item) = allMinusIgnored fields ignored := by
  unfold allMinusIgnored
  congr 1
  funext f
  by_cases h : f ∈ ignored <;> simp [h]

/-- The slice `fieldsStr` is all-minus-ignored of the catalog ids or of the sense fields. -/
theorem fieldsStr_eq (allFields : List Fields) (pol : TablePolicy) :
    fieldsStr allFields pol =
      if pol.SenseFields = [] ∨ pol.SenseFields.head? = some "" then
        allMinusIgnored (allFields.map (fun item => item.FieldID)) pol.IgnoreFields
      else allMinusIgnored pol.SenseFields pol.IgnoreFields := by
  unfold fieldsStr
  simp only [List.length_eq_zero]
  split_ifs
  · exact filter_map_FieldID _ _
  · exact filter_contains_eq _ _

theorem allMinusIgnored_not_ignored (base ignored : List String) :
    ∀ f ∈ allMinusIgnored base ignored, f ∈ base ∧ f ∉ ignored := by
  intro f hf
  unfold allMinusIgnored at hf
  simpa using List.mem_filter.mp hf

/-- C3: the policy a successful `buildPolicy` stores in the registry has as `Fields` the
comma-join of the sensed-field list, which is all-minus-ignored: with no sense fields
(empty list, or first element empty) the catalog's field ids in catalog order without
the members of `IgnoreFields`, otherwise the given `SenseFields` in their order without
the members of `IgnoreFields`; in both cases the list holds no ignored field. -/
theorem buildPolicy_fields_all_minus_ignored (env : Env) (st st2 : State) (tableName : String)
    (min_log_num outdate : Int) (pol : TablePolicy) (p : Policy)
    (h : buildPolicy env st tableName min_log_num outdate pol = (.ok p, st2)) :
    Load st2.svc.allPolicy tableName = some p ∧
    p.Fields = Join (fieldsStr (env.GetFields tableName) pol) "," ∧
    ((pol.SenseFields = [] ∨ pol.SenseFields.head? = some "") →
      fieldsStr (env.GetFields tableName) pol
        = allMinusIgnored (catalog env tableName) pol.IgnoreFields) ∧
    (¬ (pol.SenseFields = [] ∨ pol.SenseFields.head? = some "") →
      fieldsStr (env.GetFields tableName) pol
        = allMinusIgnored pol.SenseFields pol.IgnoreFields) ∧
    (∀ f ∈ fieldsStr (env.GetFields tableName) pol, f ∉ pol.IgnoreFields) := by
  obtain ⟨primary, -, hp, -, hst⟩ := buildPolicy_ok env st st2 tableName min_log_num outdate pol p h
  refine ⟨?_, ?_, ?_, ?_, ?_⟩
  · rw [hst]
    exact Load_Store_self _ _ _
  · rw [hp]
  · intro hc
    rw [fieldsStr_eq, if_pos hc]
    rfl
  · intro hc
    rw [fieldsStr_eq, if_neg hc]
  · intro f hf
    rw [fieldsStr_eq] at hf
    split_ifs at hf
    · exact (allMinusIgnored_not_ignored _ _ f hf).2
    · exact (allMinusIgnored_not_ignored _ _ f hf).2

/-- C3 at a concrete registration: `notes` with `created_at` ignored keeps `id,note`. -/
theorem buildPolicy_fields_all_minus_ignored_witness :
    buildPolicy Env.sample State.initial "notes" 10 10
        { Table := .named "notes", IgnoreFields := ["created_at"] }
      = (.ok { Policy.notes with Fields := "id,note" },
          { State.initial with
            policyTable := [{ Policy.notes with Fields := "id,note" }]
            svc := { State.initial.svc with
              allPolicy := [("notes", { Policy.notes with Fields := "id,note" })] } }) ∧
    fieldsStr (Env.sample.GetFields "notes")
        { Table := .named "notes", IgnoreFields := ["created_at"] } = ["id", "note"] ∧
    (∀ f ∈ fieldsStr (Env.sample.GetFields "notes")
        { Table := .named "notes", IgnoreFields := ["created_at"] }, f ∉ ["created_at"]) :=
  ⟨rfl, by decide,
    (buildPolicy_fields_all_minus_ignored Env.sample State.initial
      { State.initial with
        policyTable := [{ Policy.notes with Fields := "id,note" }]
        svc := { State.initial.svc with
          allPolicy := [("notes", { Policy.notes with Fields := "id,note" })] } }
      "notes" 10 10 { Table := .named "notes", IgnoreFields := ["created_at"] }
      { Policy.notes with Fields := "id,note" } rfl).2.2.2.2⟩

/-! ## Theorems: the manager -/

/-- A started manager answers `Start` with the error and stays as it is. -/
theorem Start_started (env : MainEnv) (w : World) (db : Option Nat) (ctx : Option Ctx)
    (h : w.d.ctx ≠ none) : Start env w db ctx = (.returned (some "已经启动过"), w) := by
  unfold Start
  rw [if_pos h]

/-- What a successful `Start` did: it derived a context from the parent, kept it with its
cancel function, and launched one writer that reads the parent's `Done()`. -/
theorem Start_ok (env : MainEnv) (w w1 : World) (db : Option Nat) (ctx : Option Ctx)
    (h : Start env w db ctx = (.returned none, w1)) :
    w.d.ctx = none ∧
    ∃ parent, ctx = some parent ∧
      w1.d = { ctx := some (Ctx.derived w.nextCtx parent),
               cancel := some (Ctx.derived w.nextCtx parent) } ∧
      w1.writers = w.writers ++ [{ watch := parent, running := true }] ∧
      w1.cancelled = w.cancelled ∧ w1.ch = w.ch ∧ w1.saved = w.saved := by
  unfold Start at h
  by_cases h0 : w.d.ctx ≠ none
  · rw [if_pos h0] at h
    simp at h
  · rw [if_neg h0] at h
    refine ⟨by simpa using h0, ?_⟩
    split at h
    · simp at h
    · split at h
      · simp at h
      · split at h
        · simp at h
        · cases ctx with
          | none => simp at h
          | some parent =>
            simp only [Prod.mk.injEq, true_and] at h
            subst h
            exact ⟨parent, rfl, rfl, rfl, rfl, rfl, rfl⟩

/-- `Stop` keeps the manager's context and cancel function and launches nothing. -/
theorem Stop_frame (w : World) : (Stop w).2.d = w.d ∧ (Stop w).2.writers = w.writers := by
  unfold Stop
  cases w.d.cancel <;> exact ⟨rfl, rfl⟩

/-- On a started manager no call replaces the context or launches a writer. -/
theorem MgrCall.run_started (env : MainEnv) (w : World) (c : MgrCall) (h : w.d.ctx ≠ none) :
    (c.run env w).2.d = w.d ∧ (c.run env w).2.writers = w.writers := by
  cases c with
  | start db ctx =>
    show (Start env w db ctx).2.d = w.d ∧ (Start env w db ctx).2.writers = w.writers
    rw [Start_started env w db ctx h]
    exact ⟨rfl, rfl⟩
  | stop => exact Stop_frame w

theorem runCalls_started (env : MainEnv) (calls : List MgrCall) (w : World)
    (h : w.d.ctx ≠ none) :
    (runCalls env w calls).d = w.d ∧ (runCalls env w calls).writers = w.writers := by
  induction calls generalizing w with
  | nil => exact ⟨rfl, rfl⟩
  | cons c cs ih =>
    have hc := MgrCall.run_started env w c h
    have h2 : (c.run env w).2.d.ctx ≠ none := by rw [hc.1]; exact h
    have := ih (c.run env w).2 h2
    show (runCalls env (c.run env w).2 cs).d = w.d ∧ (runCalls env (c.run env w).2 cs).writers = w.writers
    rw [this.1, this.2]
    exact hc

/-- C4: once a call to `Start` has returned nil, every later call to `Start` (after any
further calls to `Start` and `Stop`, in any runtime environment) returns the error
"已经启动过" and leaves the whole state as it found it; the manager's context and cancel
function are the ones the first call set and no further writer has been launched. -/
theorem Start_idempotent (env env2 : MainEnv) (w w1 : World) (db db2 : Option Nat)
    (ctx ctx2 : Option Ctx) (calls : List MgrCall)
    (h : Start env w db ctx = (.returned none, w1)) :
    Start env2 (runCalls env2 w1 calls) db2 ctx2
      = (.returned (some "已经启动过"), runCalls env2 w1 calls) ∧
    (runCalls env2 w1 calls).d = w1.d ∧
    (runCalls env2 w1 calls).writers = w1.writers ∧
    w1.d.ctx ≠ none ∧ w1.writers.length = w.writers.length + 1 := by
  obtain ⟨-, parent, -, hd, hw, -⟩ := Start_ok env w w1 db ctx h
  have hs : w1.d.ctx ≠ none := by rw [hd]; simp
  have hr := runCalls_started env2 calls w1 hs
  refine ⟨Start_started env2 _ db2 ctx2 (by rw [hr.1]; exact hs), hr.1, hr.2, hs, ?_⟩
  rw [hw]
  simp

/-- C4 at a concrete run: a fresh manager is started, stopped and started again. -/
theorem Start_idempotent_witness :
    Start MainEnv.callOnce World.fresh (some 1) (some (Ctx.root 0))
      = (.returned none, (Start MainEnv.callOnce World.fresh (some 1) (some (Ctx.root 0))).2) ∧
    Start MainEnv.callOnce
        (runCalls MainEnv.callOnce
          (Start MainEnv.callOnce World.fresh (some 1) (some (Ctx.root 0))).2 [MgrCall.stop])
        (some 2) (some (Ctx.root 5))
      = (.returned (some "已经启动过"),
          runCalls MainEnv.callOnce
            (Start MainEnv.callOnce World.fresh (some 1) (some (Ctx.root 0))).2 [MgrCall.stop]) :=
  ⟨rfl, (Start_idempotent MainEnv.callOnce MainEnv.callOnce World.fresh _ (some 1) (some 2)
    (some (Ctx.root 0)) (some (Ctx.root 5)) [MgrCall.stop] rfl).1⟩

theorem Ctx.ne_of_depth_lt (c x : Ctx) (h : c.depth < x.depth) : c ≠ x := by
  intro hc
  subst hc
  exact Nat.lt_irrefl _ h

/-- Cancelling a context does not close `Done()` of a context nearer to the root. -/
theorem Ctx.isDone_cons_deeper (cancelled : List Ctx) (x : Ctx) :
    ∀ c : Ctx, c.depth < x.depth → c.isDone (x :: cancelled) = c.isDone cancelled := by
  intro c
  induction c with
  | root n =>
    intro h
    have hne := Ctx.ne_of_depth_lt (.root n) x h
    simp [Ctx.isDone, List.contains_cons, hne]
  | derived n parent ih =>
    intro h
    have hne := Ctx.ne_of_depth_lt (.derived n parent) x h
    have hp : parent.depth < x.depth := by
      simp only [Ctx.depth] at h
      omega
    simp [Ctx.isDone, List.contains_cons, hne, ih hp]

/-- After a successful `Start` on any parent context, `Stop` cancels the derived context
and the writer's `Done()` case is as ready as it was before: `Stop` does not end the loop. -/
theorem Stop_keeps_writer (env : MainEnv) (w w1 : World) (db : Option Nat) (parent : Ctx)
    (h : Start env w db (some parent) = (.returned none, w1)) :
    (Stop w1).1 = .returned none ∧
    (Stop w1).2.cancelled = Ctx.derived w.nextCtx parent :: w.cancelled ∧
    (Stop w1).2.writers.get? w.writers.length = some { watch := parent, running := true } ∧
    parent.isDone (Stop w1).2.cancelled = parent.isDone w.cancelled := by
  obtain ⟨-, p, hp, hd, hw, hc, -⟩ := Start_ok env w w1 db (some parent) h
  simp only [Option.some.injEq] at hp
  subst hp
  have hcancel : w1.d.cancel = some (Ctx.derived w.nextCtx parent) := by rw [hd]
  have hstop : Stop w1 = (.returned none,
      { w1 with cancelled := Ctx.derived w.nextCtx parent :: w1.cancelled }) := by
    unfold Stop
    rw [hcancel]
  rw [hstop]
  refine ⟨rfl, by simp [hc], ?_, ?_⟩
  · simp [hw]
  · show parent.isDone (Ctx.derived w.nextCtx parent :: w1.cancelled) = _
    rw [hc]
    exact Ctx.isDone_cons_deeper _ _ parent (by simp [Ctx.depth])

/-- C5 on the code: a fresh manager is started with a parent context that is never
cancelled and then stopped. `Stop` returns and has cancelled the derived context, but the
writer reads the parent's `Done()`: its exit case is not ready, it is still in its loop,
and a record arriving afterwards is still handed to the saver. -/
theorem Stop_writer_still_forwards :
    (Start MainEnv.callOnce World.fresh (some 1) (some (Ctx.root 0))).1 = .returned none ∧
    (Stop World.started).1 = .returned none ∧
    (Stop World.started).2.cancelled = [Ctx.derived 0 (Ctx.root 0)] ∧
    (Stop World.started).2.writers = [{ watch := Ctx.root 0, running := true }] ∧
    writerStep (Stop World.started).2 0 .done = none ∧
    (writerStep { (Stop World.started).2 with ch := ["record"] } 0 .recv).map
      (fun w => (w.saved, w.writers)) =
        some (["record"], [{ watch := Ctx.root 0, running := true }]) := by
  refine ⟨rfl, rfl, rfl, rfl, ?_, ?_⟩
  · decide
  · decide

/-! ## Theorems: registration and its failure -/

/-- `registerCheck` changes at most the list of migrated schema objects. -/
theorem registerCheck_frame (env : Env) (st : State) (table : TableRef) :
    (registerCheck env st table).2 = { st with migrated := (registerCheck env st table).2.migrated } := by
  unfold registerCheck
  cases table <;> rfl

/-- `buildTrigger` changes at most the installed triggers. -/
theorem buildTrigger_frame (env : Env) (st : State) (tableName : String) :
    (buildTrigger env st tableName).2.svc = st.svc ∧
    (buildTrigger env st tableName).2.policyTable = st.policyTable ∧
    (buildTrigger env st tableName).2.loggerCalls = st.loggerCalls ∧
    (buildTrigger env st tableName).2.migrated = st.migrated := by
  unfold buildTrigger
  simp only []
  split
  · exact ⟨rfl, rfl, rfl, rfl⟩
  · split
    · exact ⟨rfl, rfl, rfl, rfl⟩
    · split
      · exact ⟨rfl, rfl, rfl, rfl⟩
      · exact ⟨rfl, rfl, rfl, rfl⟩

/-- The steps of `RegisterWithPolicy` for a table that passes the check, has a name and
is not in the cache: the result is decided by `buildPolicy` and then `buildTrigger`. -/
theorem RegisterWithPolicy_new (env : Env) (st : State) (pol : TablePolicy)
    (hc : (registerCheck env st pol.Table).1 = true)
    (hn : env.GetTableName pol.Table ≠ "")
    (hl : Load st.svc.allPolicy (env.GetTableName pol.Table) = none) :
    RegisterWithPolicy env st pol =
      match buildPolicy env (registerCheck env st pol.Table).2 (env.GetTableName pol.Table)
          st.svc.MinLogNum st.svc.OutDate pol with
      | (.error err, st1) => (some err, st1)
      | (.ok p, st1) =>
        buildTrigger env
          { st1 with loggerCalls := st1.loggerCalls ++
              [LoggerCall.SetSenseFields (env.GetTableName pol.Table) (Split p.Fields)] }
          (env.GetTableName pol.Table) := by
  have hf := registerCheck_frame env st pol.Table
  unfold RegisterWithPolicy
  simp only []
  rcases hrc : registerCheck env st pol.Table with ⟨ok, st0⟩
  rw [hrc] at hc hf
  simp only at hc hf
  subst hc
  have hsvc : st0.svc = st.svc := by rw [hf]
  simp only [hn, if_false, hsvc, hl]
  rcases hb : buildPolicy env st0 (env.GetTableName pol.Table) st.svc.MinLogNum st.svc.OutDate pol
    with ⟨r, st1⟩
  cases r with
  | error e => rfl
  | ok p =>
    simp only []
    rcases hbt : buildTrigger env
      { st1 with loggerCalls := st1.loggerCalls ++
          [LoggerCall.SetSenseFields (env.GetTableName pol.Table) (Split p.Fields)] }
      (env.GetTableName pol.Table) with ⟨e, st2⟩
    cases e <;> rfl

/-- When `RegisterWithPolicy` ends before `buildPolicy`, the cache and the policy table
are as they were. -/
theorem RegisterWithPolicy_early (env : Env) (st : State) (pol : TablePolicy)
    (h : ¬ ((registerCheck env st pol.Table).1 = true ∧ env.GetTableName pol.Table ≠ "")) :
    (RegisterWithPolicy env st pol).1 ≠ none ∧
    (RegisterWithPolicy env st pol).2.svc = st.svc ∧
    (RegisterWithPolicy env st pol).2.policyTable = st.policyTable := by
  have hf := registerCheck_frame env st pol.Table
  unfold RegisterWithPolicy
  simp only []
  rcases hrc : registerCheck env st pol.Table with ⟨ok, st0⟩
  rw [hrc] at h hf
  simp only at h hf
  have hsvc : st0.svc = st.svc := by rw [hf]
  have hpt : st0.policyTable = st.policyTable := by rw [hf]
  cases ok with
  | false => exact ⟨by simp, hsvc, hpt⟩
  | true =>
    have hn : env.GetTableName pol.Table = "" := by simpa using h
    simp only [hn, if_true]
    exact ⟨by simp, hsvc, hpt⟩

theorem CreateNoExist_has_row (rows : List Policy) (p : Policy) (tableName : String)
    (hp : p.TableName = tableName) :
    ∃ row ∈ CreateNoExist rows p tableName, row.TableName = tableName := by
  unfold CreateNoExist
  by_cases h : rows.any (fun r => r.TableName == tableName) = true
  · rw [if_pos h]
    obtain ⟨r, hr, hrt⟩ := List.any_eq_true.mp h
    exact ⟨r, hr, by simpa using hrt⟩
  · rw [if_neg h]
    exact ⟨p, by simp, hp⟩

/-- C6 as the code has it: for a table not yet registered, when `RegisterWithPolicy`
returns an error after the policy was built (the error is then the one of
`buildTrigger`), nothing is rolled back: the policy stays in the in-memory cache and the
persisted policy table holds a row of the table. The cache and the policy table are as
before the call only when the call fails before a policy is stored. -/
theorem RegisterWithPolicy_error_no_rollback (env : Env) (st st2 : State) (pol : TablePolicy)
    (err : String)
    (hnew : Load st.svc.allPolicy (env.GetTableName pol.Table) = none)
    (h : RegisterWithPolicy env st pol = (some err, st2)) :
    (∀ p, builtPolicy env st pol = some p →
      Load st2.svc.allPolicy (env.GetTableName pol.Table) = some p ∧
      st2.policyTable = CreateNoExist st.policyTable p (env.GetTableName pol.Table) ∧
      (∃ row ∈ st2.policyTable, row.TableName = env.GetTableName pol.Table) ∧
      (∃ st1, buildTrigger env st1 (env.GetTableName pol.Table) = (some err, st2))) ∧
    (builtPolicy env st pol = none →
      st2.svc.allPolicy = st.svc.allPolicy ∧ st2.policyTable = st.policyTable) := by
  by_cases hc : (registerCheck env st pol.Table).1 = true ∧ env.GetTableName pol.Table ≠ ""
  · have hnewEq := RegisterWithPolicy_new env st pol hc.1 hc.2 hnew
    have hf := registerCheck_frame env st pol.Table
    rw [hnewEq] at h
    unfold builtPolicy
    rw [if_pos hc]
    rcases hb : buildPolicy env (registerCheck env st pol.Table).2 (env.GetTableName pol.Table)
      st.svc.MinLogNum st.svc.OutDate pol with ⟨r, st1⟩
    rw [hb] at h
    cases r with
    | error e =>
      simp only [Prod.mk.injEq] at h
      have := buildPolicy_error _ _ _ _ _ _ _ _ hb
      refine ⟨by intro p hp; simp at hp, fun _ => ?_⟩
      rw [← h.2, this, hf]
      exact ⟨rfl, rfl⟩
    | ok p =>
      simp only at h
      obtain ⟨primary, -, hp, -, hst⟩ := buildPolicy_ok _ _ _ _ _ _ _ _ hb
      have hfr := buildTrigger_frame env
        { st1 with loggerCalls := st1.loggerCalls ++
            [LoggerCall.SetSenseFields (env.GetTableName pol.Table) (Split p.Fields)] }
        (env.GetTableName pol.Table)
      rw [h] at hfr
      simp only at hfr
      have hpt : st2.policyTable
          = CreateNoExist st.policyTable p (env.GetTableName pol.Table) := by
        rw [hfr.2.1, hst, hf]
      refine ⟨?_, by intro hn; simp at hn⟩
      intro q hq
      simp only [Option.some.injEq] at hq
      subst hq
      refine ⟨?_, hpt, ?_, ⟨_, h⟩⟩
      · rw [hfr.1, hst]
        exact Load_Store_self _ _ _
      · rw [hpt]
        exact CreateNoExist_has_row _ _ _ (by rw [hp])
  · have he := RegisterWithPolicy_early env st pol hc
    rw [h] at he
    unfold builtPolicy
    rw [if_neg hc]
    refine ⟨by intro p hp; simp at hp, fun _ => ?_⟩
    exact ⟨by rw [he.2.1], he.2.2⟩

/-- C6 at a concrete registration: the database refuses the row trigger of `notes`. -/
theorem RegisterWithPolicy_error_no_rollback_witness :
    RegisterWithPolicy Env.noTrigger State.initial { Table := .named "notes" }
      = (some "create trigger failed",
          (RegisterWithPolicy Env.noTrigger State.initial { Table := .named "notes" }).2) ∧
    builtPolicy Env.noTrigger State.initial { Table := .named "notes" } = some Policy.notes ∧
    Load (RegisterWithPolicy Env.noTrigger State.initial { Table := .named "notes" }).2.svc.allPolicy
      "notes" = some Policy.notes :=
  ⟨rfl, rfl,
    ((RegisterWithPolicy_error_no_rollback Env.noTrigger State.initial _
      { Table := .named "notes" } "create trigger failed" rfl rfl).1 Policy.notes rfl).1⟩

/-- C6 refuted as stated: `notes` is not registered and the policy table is empty; the
registration fails in `buildTrigger` and returns the error, yet afterwards the cache and
the persisted policy table both hold the policy of `notes`. -/
theorem RegisterWithPolicy_rollback_counterexample :
    Load State.initial.svc.allPolicy "notes" = none ∧
    State.initial.policyTable = [] ∧
    (RegisterWithPolicy Env.noTrigger State.initial { Table := .named "notes" }).1
      = some "create trigger failed" ∧
    (buildTrigger Env.noTrigger State.initial "notes").1 = some "create trigger failed" ∧
    Load (RegisterWithPolicy Env.noTrigger State.initial { Table := .named "notes" }).2.svc.allPolicy
      "notes" = some Policy.notes ∧
    (RegisterWithPolicy Env.noTrigger State.initial { Table := .named "notes" }).2.policyTable
      = [Policy.notes] ∧
    ¬ ((RegisterWithPolicy Env.noTrigger State.initial { Table := .named "notes" }).2.svc.allPolicy
          = State.initial.svc.allPolicy ∧
        (RegisterWithPolicy Env.noTrigger State.initial { Table := .named "notes" }).2.policyTable
          = State.initial.policyTable) := by
  refine ⟨rfl, rfl, rfl, rfl, rfl, rfl, ?_⟩
  decide

/-! ## Theorems: unregistering -/

/-- What a successful `UnRegister` did. -/
theorem UnRegister_ok (env : Env) (st st2 : State) (table : String)
    (h : UnRegister env st table = (none, st2)) :
    st2.svc = { st.svc with allPolicy := Delete st.svc.allPolicy table } ∧
    st2.policyTable = DeleteByTableName st.policyTable table ∧
    st2.triggers = dropTrigger st.triggers (table ++ "_auto_log_trigger") := by
  have hf := registerCheck_frame env st (.named table)
  unfold UnRegister at h
  simp only [] at h
  split at h
  · simp at h
  · split at h
    · simp at h
    · simp only [Prod.mk.injEq, true_and] at h
      subst h
      refine ⟨?_, ?_, ?_⟩
      · show ({ (registerCheck env st (.named table)).2.svc with
            allPolicy := Delete (registerCheck env st (.named table)).2.svc.allPolicy table } : MetaService) = _
        rw [hf]
      · show DeleteByTableName (registerCheck env st (.named table)).2.policyTable table = _
        rw [hf]
      · show dropTrigger (registerCheck env st (.named table)).2.triggers _ = _
        rw [hf]

theorem mem_Delete (m : List (String × Policy)) (k : String) (e : String × Policy) :
    e ∈ Delete m k ↔ e ∈ m ∧ e.1 ≠ k := by
  unfold Delete
  simp [List.mem_filter]

/-- C7: when `UnRegister(t)` returns nil the table is no longer registered: it has no
policy in the cache, `ListTable` does not contain it (the cache keys being the table
names of their policies), `ListTableLog` and `ListTableAllLog` on it return their error
with a nil result, and the policy of every other table is the one it was. -/
theorem UnRegister_unregisters (env env2 : Env) (st st2 : State) (t recordID : String)
    (startTime endTime : Option Nat) (page pageSize : Int)
    (hkeys : KeysMatch st)
    (h : UnRegister env st t = (none, st2)) :
    Load st2.svc.allPolicy t = none ∧
    t ∉ ListTable st2 ∧
    (ListTableLog env2 st2 t recordID startTime endTime page pageSize).1
      = { rows := none, err := some (t ++ "未进行监听") } ∧
    (ListTableAllLog env2 st2 t startTime endTime page pageSize).1
      = { rows := none, err := some (t ++ "未进行监听") } ∧
    (∀ u, u ≠ t → Load st2.svc.allPolicy u = Load st.svc.allPolicy u) ∧
    KeysMatch st2 := by
  obtain ⟨hsvc, -, -⟩ := UnRegister_ok env st st2 t h
  have hall : st2.svc.allPolicy = Delete st.svc.allPolicy t := by rw [hsvc]
  have hload : Load st2.svc.allPolicy t = none := by
    rw [hall]
    exact Load_Delete_self _ _
  refine ⟨hload, ?_, ?_, ?_, ?_, ?_⟩
  · unfold ListTable
    rw [hall]
    intro hmem
    obtain ⟨e, he, het⟩ := List.mem_map.mp hmem
    have := (mem_Delete _ _ _).mp he
    exact this.2 ((hkeys e this.1).symm.trans het)
  · unfold ListTableLog
    rw [hload]
  · unfold ListTableAllLog
    rw [hload]
  · intro u hu
    rw [hall]
    exact Load_Delete_ne _ _ _ hu
  · intro e he
    rw [hall] at he
    exact hkeys e ((mem_Delete _ _ _).mp he).1

/-- C7 at a concrete registry: `notes` is registered and then unregistered. -/
theorem UnRegister_unregisters_witness :
    Load State.withNotes.svc.allPolicy "notes" = some Policy.notes ∧
    UnRegister Env.sample State.withNotes "notes"
      = (none, (UnRegister Env.sample State.withNotes "notes").2) ∧
    "notes" ∉ ListTable (UnRegister Env.sample State.withNotes "notes").2 :=
  ⟨rfl, rfl,
    (UnRegister_unregisters Env.sample Env.sample State.withNotes _ "notes" "1" none none 1 10
      (by unfold KeysMatch; decide) rfl).2.1⟩

/-! ## Theorems: retention values of a new policy -/

/-- C8 as the code has it: the policy `buildPolicy` stores for a new table has as
`MinLogNum` the larger of the `min_log_num` it is given and the service default, and as
`Outdate` the larger of the `outdate` it is given and the service default; a given value
is stored as it is exactly when it is not below the service default. -/
theorem buildPolicy_retention_floor (env : Env) (st st2 : State) (tableName : String)
    (min_log_num outdate : Int) (pol : TablePolicy) (p : Policy)
    (h : buildPolicy env st tableName min_log_num outdate pol = (.ok p, st2)) :
    Load st2.svc.allPolicy tableName = some p ∧
    p.MinLogNum = max min_log_num st.svc.MinLogNum ∧
    p.Outdate = max outdate st.svc.OutDate ∧
    (p.MinLogNum = min_log_num ↔ st.svc.MinLogNum ≤ min_log_num) ∧
    (p.Outdate = outdate ↔ st.svc.OutDate ≤ outdate) := by
  obtain ⟨primary, -, hp, -, hst⟩ := buildPolicy_ok env st st2 tableName min_log_num outdate pol p h
  have hm : p.MinLogNum
      = if min_log_num < st.svc.MinLogNum then st.svc.MinLogNum else min_log_num := by rw [hp]
  have ho : p.Outdate = if outdate < st.svc.OutDate then st.svc.OutDate else outdate := by rw [hp]
  refine ⟨?_, ?_, ?_, ?_, ?_⟩
  · rw [hst]
    exact Load_Store_self _ _ _
  · rw [hm]
    split_ifs with hc
    · exact (max_eq_right (le_of_lt hc)).symm
    · exact (max_eq_left (not_lt.mp hc)).symm
  · rw [ho]
    split_ifs with hc
    · exact (max_eq_right (le_of_lt hc)).symm
    · exact (max_eq_left (not_lt.mp hc)).symm
  · rw [hm]
    split_ifs with hc <;> constructor <;> intro h2 <;> omega
  · rw [ho]
    split_ifs with hc <;> constructor <;> intro h2 <;> omega

/-- C8 at a concrete call: with defaults 10 and 10, `buildPolicy` given 30 and 20 stores
30 and 20. -/
theorem buildPolicy_retention_floor_witness :
    buildPolicy Env.sample State.initial "notes" 30 20 { Table := .named "notes" }
      = (.ok { Policy.notes with MinLogNum := 30, Outdate := 20 },
          (buildPolicy Env.sample State.initial "notes" 30 20 { Table := .named "notes" }).2) ∧
    ({ Policy.notes with MinLogNum := 30, Outdate := 20 } : Policy).MinLogNum
      = max 30 State.initial.svc.MinLogNum :=
  ⟨rfl,
    (buildPolicy_retention_floor Env.sample State.initial _ "notes" 30 20
      { Table := .named "notes" } { Policy.notes with MinLogNum := 30, Outdate := 20 } rfl).2.1⟩

/-- C8 refuted as stated: `notes` is a catalog table that is not registered; `Register`
is given `min_log_num = 3` and `outdate = 5`, both at least 1, and returns nil; the
policy it stores has `MinLogNum = 10` and `Outdate = 10`, the service defaults. -/
theorem Register_retention_counterexample :
    Load State.initial.svc.allPolicy "notes" = none ∧
    (registerCheck Env.sample State.initial (.named "notes")).1 = true ∧
    (Register Env.sample State.initial (.named "notes") 3 5 [] []).1 = none ∧
    (Load (Register Env.sample State.initial (.named "notes") 3 5 [] []).2.svc.allPolicy
      "notes").map (fun p => (p.MinLogNum, p.Outdate)) = some (10, 10) ∧
    (Load (Register Env.sample State.initial (.named "notes") 3 5 [] []).2.svc.allPolicy
      "notes").map (fun p => (p.MinLogNum, p.Outdate)) ≠ some (3, 5) := by
  refine ⟨rfl, rfl, rfl, rfl, ?_⟩
  decide

/-! ## Theorems: what a registry call leaves in the cache -/

/-- `savePolicy` rewrites the entry of the table and keeps the service defaults. -/
theorem savePolicy_svc (env : Env) (st : State) (tableName : String) (policy : Policy) :
    (savePolicy env st tableName policy).2.svc
      = { st.svc with allPolicy :=
          st.svc.allPolicy.map (fun e => if e.1 == tableName then (e.1, policy) else e) } := by
  unfold savePolicy
  simp only []
  cases env.Save policy <;> rfl

theorem savePolicy_mem (env : Env) (st : State) (tableName : String) (policy : Policy) :
    ∀ e ∈ (savePolicy env st tableName policy).2.svc.allPolicy,
      e ∈ st.svc.allPolicy ∨ e = (tableName, policy) := by
  intro e he
  rw [savePolicy_svc] at he
  obtain ⟨x, hx, hxe⟩ := List.mem_map.mp he
  by_cases hk : x.1 = tableName
  · right
    simp only [hk, beq_self_eq_true, if_true] at hxe
    exact hxe.symm
  · left
    have hb : (x.1 == tableName) = false := by simpa using hk
    rw [hb] at hxe
    simp only [Bool.false_eq_true, if_false] at hxe
    rw [← hxe]
    exact hx

theorem mem_Store (m : List (String × Policy)) (k : String) (v : Policy) :
    ∀ e ∈ Store m k v, e ∈ m ∨ e = (k, v) := by
  intro e he
  unfold Store at he
  rcases List.mem_append.mp he with h | h
  · exact Or.inl ((mem_Delete _ _ _).mp h).1
  · exact Or.inr (by simpa using h)

/-- `RegisterWithPolicy` on a table that is already in the cache does nothing to it. -/
theorem RegisterWithPolicy_known (env : Env) (st : State) (pol : TablePolicy) (q : Policy)
    (hl : Load st.svc.allPolicy (env.GetTableName pol.Table) = some q) :
    (RegisterWithPolicy env st pol).2.svc = st.svc := by
  have hf := registerCheck_frame env st pol.Table
  unfold RegisterWithPolicy
  simp only []
  rcases hrc : registerCheck env st pol.Table with ⟨ok, st0⟩
  rw [hrc] at hf
  simp only at hf
  have hsvc : st0.svc = st.svc := by rw [hf]
  cases ok with
  | false => exact hsvc
  | true =>
    simp only []
    by_cases hn : env.GetTableName pol.Table = ""
    · rw [if_pos hn]
      exact hsvc
    · rw [if_neg hn, hsvc, hl]
      exact hsvc

/-- The service after `RegisterWithPolicy`: the one before, with the built policy stored
under the table name when the table was new and a policy was built. -/
theorem RegisterWithPolicy_svc (env : Env) (st : State) (pol : TablePolicy) :
    (RegisterWithPolicy env st pol).2.svc =
      match (RegistryOp.registerWithPolicy pol).stored env st with
      | none => st.svc
      | some e => { st.svc with allPolicy := Store st.svc.allPolicy e.1 e.2 } := by
  cases hl : Load st.svc.allPolicy (env.GetTableName pol.Table) with
  | some q =>
    simp only [RegistryOp.stored, hl]
    exact RegisterWithPolicy_known env st pol q hl
  | none =>
    simp only [RegistryOp.stored, hl]
    by_cases hc : (registerCheck env st pol.Table).1 = true ∧ env.GetTableName pol.Table ≠ ""
    · have hf := registerCheck_frame env st pol.Table
      have hsvc : (registerCheck env st pol.Table).2.svc = st.svc := by rw [hf]
      rw [RegisterWithPolicy_new env st pol hc.1 hc.2 hl]
      unfold builtPolicy
      rw [if_pos hc]
      rcases hb : buildPolicy env (registerCheck env st pol.Table).2 (env.GetTableName pol.Table)
        st.svc.MinLogNum st.svc.OutDate pol with ⟨r, st1⟩
      cases r with
      | error e =>
        have := buildPolicy_error _ _ _ _ _ _ _ _ hb
        simp only [Option.map_none']
        rw [this]
        exact hsvc
      | ok p =>
        obtain ⟨primary, -, -, -, hst⟩ := buildPolicy_ok _ _ _ _ _ _ _ _ hb
        simp only [Option.map_some']
        rw [(buildTrigger_frame env _ _).1, hst]
        simp only [hsvc]
    · have he := RegisterWithPolicy_early env st pol hc
      unfold builtPolicy
      rw [if_neg hc]
      exact he.2.1

/-- The policy `RegisterWithPolicy` builds has the service defaults as retention values,
the table name as `TableName`, and the join of `fieldsStr` as `Fields`. -/
theorem builtPolicy_eq (env : Env) (st : State) (pol : TablePolicy) (p : Policy)
    (h : builtPolicy env st pol = some p) :
    p.TableName = env.GetTableName pol.Table ∧
    p.MinLogNum = st.svc.MinLogNum ∧ p.Outdate = st.svc.OutDate ∧
    p.Fields = Join (fieldsStr (env.GetFields (env.GetTableName pol.Table)) pol) "," := by
  have hf := registerCheck_frame env st pol.Table
  unfold builtPolicy at h
  split_ifs at h with hc
  rcases hb : buildPolicy env (registerCheck env st pol.Table).2 (env.GetTableName pol.Table)
    st.svc.MinLogNum st.svc.OutDate pol with ⟨r, st1⟩
  rw [hb] at h
  cases r with
  | error e => simp at h
  | ok q =>
    simp only [Option.some.injEq] at h
    subst h
    obtain ⟨primary, -, hp, -, -⟩ := buildPolicy_ok _ _ _ _ _ _ _ _ hb
    have hsvc : (registerCheck env st pol.Table).2.svc = st.svc := by rw [hf]
    rw [hsvc] at hp
    rw [hp]
    simp

/-- Every registry call keeps the service defaults, and every entry of the cache after
the call was there before or is the entry the call writes. -/
theorem RegistryOp.run_mem (env : Env) (st : State) (op : RegistryOp) :
    (op.run env st).2.svc.MinLogNum = st.svc.MinLogNum ∧
    (op.run env st).2.svc.OutDate = st.svc.OutDate ∧
    ∀ e ∈ (op.run env st).2.svc.allPolicy,
      e ∈ st.svc.allPolicy ∨ op.stored env st = some e := by
  cases op with
  | registerWithPolicy pol =>
    show (RegisterWithPolicy env st pol).2.svc.MinLogNum = _ ∧
      (RegisterWithPolicy env st pol).2.svc.OutDate = _ ∧
      ∀ e ∈ (RegisterWithPolicy env st pol).2.svc.allPolicy, _
    rw [RegisterWithPolicy_svc]
    cases hs : (RegistryOp.registerWithPolicy pol).stored env st with
    | none => exact ⟨rfl, rfl, fun e he => Or.inl he⟩
    | some x =>
      refine ⟨rfl, rfl, fun e he => ?_⟩
      rcases mem_Store _ _ _ e he with h | h
      · exact Or.inl h
      · exact Or.inr (by rw [h])
  | unRegister table =>
    show (UnRegister env st table).2.svc.MinLogNum = _ ∧
      (UnRegister env st table).2.svc.OutDate = _ ∧
      ∀ e ∈ (UnRegister env st table).2.svc.allPolicy, _
    have hf := registerCheck_frame env st (.named table)
    have hsvc : (registerCheck env st (.named table)).2.svc = st.svc := by rw [hf]
    unfold UnRegister
    simp only []
    split
    · rw [hsvc]
      exact ⟨rfl, rfl, fun e he => Or.inl he⟩
    · split
      · simp only []
        rw [hsvc]
        exact ⟨rfl, rfl, fun e he => Or.inl he⟩
      · simp only []
        rw [hsvc]
        exact ⟨rfl, rfl, fun e he => Or.inl ((mem_Delete _ _ _).mp he).1⟩
  | modifyPolicy tableName args =>
    show (ModifyPolicy env st tableName args).2.svc.MinLogNum = _ ∧
      (ModifyPolicy env st tableName args).2.svc.OutDate = _ ∧
      ∀ e ∈ (ModifyPolicy env st tableName args).2.svc.allPolicy, _
    unfold ModifyPolicy
    cases hl : Load st.svc.allPolicy tableName with
    | none => exact ⟨rfl, rfl, fun e he => Or.inl he⟩
    | some p =>
      simp only [RegistryOp.stored, hl, Option.map_some']
      refine ⟨by rw [savePolicy_svc], by rw [savePolicy_svc], fun e he => ?_⟩
      rcases savePolicy_mem _ _ _ _ e he with h | h
      · exact Or.inl h
      · exact Or.inr (by rw [h])
  | modifyOutdate tableName outdate =>
    show (ModifyOutdate env st tableName outdate).2.svc.MinLogNum = _ ∧
      (ModifyOutdate env st tableName outdate).2.svc.OutDate = _ ∧
      ∀ e ∈ (ModifyOutdate env st tableName outdate).2.svc.allPolicy, _
    unfold ModifyOutdate
    cases hl : Load st.svc.allPolicy tableName with
    | none => exact ⟨rfl, rfl, fun e he => Or.inl he⟩
    | some p =>
      simp only [RegistryOp.stored, hl, Option.map_some']
      split_ifs
      · exact ⟨rfl, rfl, fun e he => Or.inl he⟩
      · refine ⟨by rw [savePolicy_svc], by rw [savePolicy_svc], fun e he => ?_⟩
        rcases savePolicy_mem _ _ _ _ e he with h | h
        · exact Or.inl h
        · exact Or.inr (by rw [h])
  | modifyField tableName fields =>
    show (ModifyField env st tableName fields).2.svc.MinLogNum = _ ∧
      (ModifyField env st tableName fields).2.svc.OutDate = _ ∧
      ∀ e ∈ (ModifyField env st tableName fields).2.svc.allPolicy, _
    unfold ModifyField
    cases hl : Load st.svc.allPolicy tableName with
    | none => exact ⟨rfl, rfl, fun e he => Or.inl he⟩
    | some p =>
      simp only [RegistryOp.stored, hl, Option.map_some']
      refine ⟨by rw [savePolicy_svc], by rw [savePolicy_svc], fun e he => ?_⟩
      rcases savePolicy_mem _ _ _ _ e he with h | h
      · exact Or.inl h
      · exact Or.inr (by rw [h])
  | modifyMinLogNum tableName minLogNum =>
    show (ModifyMinLogNum env st tableName minLogNum).2.svc.MinLogNum = _ ∧
      (ModifyMinLogNum env st tableName minLogNum).2.svc.OutDate = _ ∧
      ∀ e ∈ (ModifyMinLogNum env st tableName minLogNum).2.svc.allPolicy, _
    unfold ModifyMinLogNum
    cases hl : Load st.svc.allPolicy tableName with
    | none => exact ⟨rfl, rfl, fun e he => Or.inl he⟩
    | some p =>
      simp only [RegistryOp.stored, hl, Option.map_some']
      refine ⟨by rw [savePolicy_svc], by rw [savePolicy_svc], fun e he => ?_⟩
      rcases savePolicy_mem _ _ _ _ e he with h | h
      · exact Or.inl h
      · exact Or.inr (by rw [h])

/-! ## Theorems: `ModifyPolicy` arguments -/

theorem applyArgs_Outdate (p : Policy) (args : List (String × Value)) :
    (applyArgs p args).Outdate =
      match args.lookup "out_date" with
      | some (.int val) => if val ≠ 0 then val else p.Outdate
      | _ => p.Outdate := by
  unfold applyArgs
  simp only []
  repeat' split
  all_goals simp_all

theorem applyArgs_MinLogNum (p : Policy) (args : List (String × Value)) :
    (applyArgs p args).MinLogNum =
      match args.lookup "min_log_num" with
      | some (.int val) => if val ≠ 0 then val else p.MinLogNum
      | _ => p.MinLogNum := by
  unfold applyArgs
  simp only []
  repeat' split
  all_goals simp_all

theorem applyArgs_Fields (p : Policy) (args : List (String × Value)) :
    (applyArgs p args).Fields =
      match args.lookup "fields" with
      | some (.strings (some val)) => Join val ","
      | _ => p.Fields := by
  unfold applyArgs
  simp only []
  repeat' split
  all_goals simp_all

theorem applyArgs_frame (p : Policy) (args : List (String × Value)) :
    (applyArgs p args).TableName = p.TableName ∧
    (applyArgs p args).PrimaryFields = p.PrimaryFields ∧
    (applyArgs p args).RelaField = p.RelaField ∧
    (applyArgs p args).Relations = p.Relations := by
  unfold applyArgs
  simp only []
  repeat' split
  all_goals exact ⟨rfl, rfl, rfl, rfl⟩

/-! ## Theorems: the retention invariant -/

/-- One registry call with valid retention arguments keeps the retention invariant. -/
theorem RetentionInv_step (env : Env) (st : State) (op : RegistryOp)
    (hinv : RetentionInv st) (hm : 1 ≤ st.svc.MinLogNum) (ho : 1 ≤ st.svc.OutDate)
    (ha : op.retentionArgs) : RetentionInv (op.run env st).2 := by
  intro e he
  rcases (RegistryOp.run_mem env st op).2.2 e he with hold | hnew
  · exact hinv e hold
  · cases op with
    | registerWithPolicy pol =>
      simp only [RegistryOp.stored] at hnew
      cases hl : Load st.svc.allPolicy (env.GetTableName pol.Table) with
      | some q => simp [hl] at hnew
      | none =>
        simp only [hl] at hnew
        cases hb : builtPolicy env st pol with
        | none => simp [hb] at hnew
        | some p =>
          simp only [hb, Option.map_some', Option.some.injEq] at hnew
          obtain ⟨-, h1, h2, -⟩ := builtPolicy_eq env st pol p hb
          rw [← hnew]
          simp only
          rw [h1, h2]
          exact ⟨hm, ho⟩
    | unRegister table => simp [RegistryOp.stored] at hnew
    | modifyPolicy tableName args =>
      simp only [RegistryOp.stored] at hnew
      cases hl : Load st.svc.allPolicy tableName with
      | none => simp [hl] at hnew
      | some p =>
        simp only [hl, Option.map_some', Option.some.injEq] at hnew
        have hp := hinv _ (Load_mem _ _ _ hl)
        simp only at hp
        rw [← hnew]
        simp only
        rw [applyArgs_MinLogNum, applyArgs_Outdate]
        obtain ⟨ha1, ha2⟩ := ha
        constructor
        · split
          · rename_i val hv
            have := ha2 val hv
            split_ifs with h0
            · omega
            · exact hp.1
          · exact hp.1
        · split
          · rename_i val hv
            have := ha1 val hv
            split_ifs with h0
            · omega
            · exact hp.2
          · exact hp.2
    | modifyOutdate tableName outdate =>
      simp only [RegistryOp.stored] at hnew
      cases hl : Load st.svc.allPolicy tableName with
      | none => simp [hl] at hnew
      | some p =>
        simp only [hl, Option.map_some', Option.some.injEq] at hnew
        have hp := hinv _ (Load_mem _ _ _ hl)
        rw [← hnew]
        exact ⟨hp.1, ha⟩
    | modifyField tableName fields =>
      simp only [RegistryOp.stored] at hnew
      cases hl : Load st.svc.allPolicy tableName with
      | none => simp [hl] at hnew
      | some p =>
        simp only [hl, Option.map_some', Option.some.injEq] at hnew
        have hp := hinv _ (Load_mem _ _ _ hl)
        rw [← hnew]
        exact hp
    | modifyMinLogNum tableName minLogNum =>
      simp only [RegistryOp.stored] at hnew
      cases hl : Load st.svc.allPolicy tableName with
      | none => simp [hl] at hnew
      | some p =>
        simp only [hl, Option.map_some', Option.some.injEq] at hnew
        have hp := hinv _ (Load_mem _ _ _ hl)
        rw [← hnew]
        exact ⟨ha, hp.2⟩

/-- C9 as the code has it: with service defaults of at least 1, every sequence of
registry calls (`RegisterWithPolicy`, `UnRegister`, `ModifyPolicy`, `ModifyOutdate`,
`ModifyField`, `ModifyMinLogNum`, in any environments) keeps `MinLogNum ≥ 1` and
`Outdate ≥ 1` in every cached policy, provided the calls are given valid retention
values: at least 1 for `ModifyOutdate` and `ModifyMinLogNum`, not negative for the
`out_date` and `min_log_num` of `ModifyPolicy`; the calls themselves check nothing. -/
theorem RetentionInv_preserved (steps : List (Env × RegistryOp)) (st : State)
    (hinv : RetentionInv st) (hm : 1 ≤ st.svc.MinLogNum) (ho : 1 ≤ st.svc.OutDate)
    (hargs : ∀ step ∈ steps, step.2.retentionArgs) :
    RetentionInv (runOps steps st) ∧
    (runOps steps st).svc.MinLogNum = st.svc.MinLogNum ∧
    (runOps steps st).svc.OutDate = st.svc.OutDate := by
  induction steps generalizing st with
  | nil => exact ⟨hinv, rfl, rfl⟩
  | cons step rest ih =>
    have hstep := RetentionInv_step step.1 st step.2 hinv hm ho (hargs step (by simp))
    obtain ⟨h1, h2, -⟩ := RegistryOp.run_mem step.1 st step.2
    have := ih (step.2.run step.1 st).2 hstep (by rw [h1]; exact hm) (by rw [h2]; exact ho)
      (fun s hs => hargs s (List.mem_cons_of_mem _ hs))
    show RetentionInv (runOps rest (step.2.run step.1 st).2) ∧
      (runOps rest (step.2.run step.1 st).2).svc.MinLogNum = st.svc.MinLogNum ∧
      (runOps rest (step.2.run step.1 st).2).svc.OutDate = st.svc.OutDate
    rw [this.2.1, this.2.2, h1, h2]
    exact ⟨this.1, rfl, rfl⟩

/-- C9 at a concrete run: `notes` is registered with defaults 10 and 10, then its
`MinLogNum` is set to 3 and its `Outdate` through `ModifyPolicy` to 7. -/
theorem RetentionInv_preserved_witness :
    RetentionInv (runOps
      [(Env.sample, .registerWithPolicy { Table := .named "notes" }),
        (Env.sample, .modifyMinLogNum "notes" 3),
        (Env.sample, .modifyPolicy "notes" [("out_date", .int 7)])] State.initial) ∧
    Load (runOps
      [(Env.sample, .registerWithPolicy { Table := .named "notes" }),
        (Env.sample, .modifyMinLogNum "notes" 3),
        (Env.sample, .modifyPolicy "notes" [("out_date", .int 7)])] State.initial).svc.allPolicy
      "notes" = some { Policy.notes with MinLogNum := 3, Outdate := 7 } :=
  ⟨(RetentionInv_preserved
      [(Env.sample, .registerWithPolicy { Table := .named "notes" }),
        (Env.sample, .modifyMinLogNum "notes" 3),
        (Env.sample, .modifyPolicy "notes" [("out_date", .int 7)])] State.initial
      (by unfold RetentionInv; decide) (by decide) (by decide)
      (by
        intro step hs
        simp only [List.mem_cons, List.mem_singleton, List.not_mem_nil, or_false] at hs
        rcases hs with rfl | rfl | rfl
        · trivial
        · show (1 : Int) ≤ 3
          decide
        · refine ⟨?_, ?_⟩
          · intro v hv
            have : v = 7 := by
              simp [List.lookup] at hv
              exact hv.symm
            omega
          · intro v hv
            simp [List.lookup] at hv)).1,
    rfl⟩

/-- C9 refuted as stated: `notes` is registered with `MinLogNum = 10` and `Outdate = 10`;
`ModifyMinLogNum("notes", 0)` and `ModifyOutdate("notes", -1)` both return nil and leave a
policy with `MinLogNum = 0`, respectively `Outdate = -1`, in the registry. -/
theorem ModifyMinLogNum_zero_counterexample :
    RetentionInv State.withNotes ∧
    (ModifyMinLogNum Env.sample State.withNotes "notes" 0).1 = none ∧
    Load (ModifyMinLogNum Env.sample State.withNotes "notes" 0).2.svc.allPolicy "notes"
      = some { Policy.notes with MinLogNum := 0 } ∧
    ¬ RetentionInv (ModifyMinLogNum Env.sample State.withNotes "notes" 0).2 ∧
    (ModifyOutdate Env.sample State.withNotes "notes" (-1)).1 = none ∧
    Load (ModifyOutdate Env.sample State.withNotes "notes" (-1)).2.svc.allPolicy "notes"
      = some { Policy.notes with Outdate := -1 } ∧
    ¬ RetentionInv (ModifyOutdate Env.sample State.withNotes "notes" (-1)).2 := by
  refine ⟨?_, rfl, rfl, ?_, rfl, rfl, ?_⟩
  · unfold RetentionInv
    decide
  · unfold RetentionInv
    decide
  · unfold RetentionInv
    decide

/-! ## Theorems: the sensed-field invariant -/

/-- The names `buildPolicy` keeps are catalog columns when no sense fields are given, and
given sense fields otherwise. -/
theorem fieldsStr_mem (allFields : List Fields) (pol : TablePolicy) :
    ∀ f ∈ fieldsStr allFields pol,
      ((pol.SenseFields = [] ∨ pol.SenseFields.head? = some "") →
        f ∈ allFields.map (fun item => item.FieldID)) ∧
      (¬ (pol.SenseFields = [] ∨ pol.SenseFields.head? = some "") → f ∈ pol.SenseFields) := by
  intro f hf
  rw [fieldsStr_eq] at hf
  constructor
  · intro hc
    rw [if_pos hc] at hf
    exact (allMinusIgnored_not_ignored _ _ f hf).1
  · intro hc
    rw [if_neg hc] at hf
    exact (allMinusIgnored_not_ignored _ _ f hf).1

/-- One registry call whose supplied field lists name catalog columns keeps the
sensed-field invariant. -/
theorem FieldsInv_step (cat : String → List String) (env : Env) (st : State) (op : RegistryOp)
    (hinv : FieldsInv cat st) (hcat : ∀ t, catalog env t = cat t)
    (ha : op.fieldArgs cat env) : FieldsInv cat (op.run env st).2 := by
  intro e he
  rcases (RegistryOp.run_mem env st op).2.2 e he with hold | hnew
  · exact hinv e hold
  · cases op with
    | registerWithPolicy pol =>
      simp only [RegistryOp.stored] at hnew
      cases hl : Load st.svc.allPolicy (env.GetTableName pol.Table) with
      | some q => simp [hl] at hnew
      | none =>
        simp only [hl] at hnew
        cases hb : builtPolicy env st pol with
        | none => simp [hb] at hnew
        | some p =>
          simp only [hb, Option.map_some', Option.some.injEq] at hnew
          obtain ⟨-, -, -, h3⟩ := builtPolicy_eq env st pol p hb
          rw [← hnew]
          refine ⟨fieldsStr (env.GetFields (env.GetTableName pol.Table)) pol, h3, ?_⟩
          intro f hf
          have hmem := fieldsStr_mem _ _ f hf
          by_cases hc : pol.SenseFields = [] ∨ pol.SenseFields.head? = some ""
          · rw [← hcat]
            exact hmem.1 hc
          · rcases ha with h | h
            · exact absurd h hc
            · exact h f (hmem.2 hc)
    | unRegister table => simp [RegistryOp.stored] at hnew
    | modifyPolicy tableName args =>
      simp only [RegistryOp.stored] at hnew
      cases hl : Load st.svc.allPolicy tableName with
      | none => simp [hl] at hnew
      | some p =>
        simp only [hl, Option.map_some', Option.some.injEq] at hnew
        obtain ⟨names, hn1, hn2⟩ := hinv _ (Load_mem _ _ _ hl)
        rw [← hnew]
        simp only
        rw [applyArgs_Fields]
        split
        · rename_i val hv
          exact ⟨val, rfl, ha val hv⟩
        · exact ⟨names, hn1, hn2⟩
    | modifyOutdate tableName outdate =>
      simp only [RegistryOp.stored] at hnew
      cases hl : Load st.svc.allPolicy tableName with
      | none => simp [hl] at hnew
      | some p =>
        simp only [hl, Option.map_some', Option.some.injEq] at hnew
        have hp := hinv _ (Load_mem _ _ _ hl)
        rw [← hnew]
        exact hp
    | modifyField tableName fields =>
      simp only [RegistryOp.stored] at hnew
      cases hl : Load st.svc.allPolicy tableName with
      | none => simp [hl] at hnew
      | some p =>
        simp only [hl, Option.map_some', Option.some.injEq] at hnew
        rw [← hnew]
        exact ⟨fields, rfl, ha⟩
    | modifyMinLogNum tableName minLogNum =>
      simp only [RegistryOp.stored] at hnew
      cases hl : Load st.svc.allPolicy tableName with
      | none => simp [hl] at hnew
      | some p =>
        simp only [hl, Option.map_some', Option.some.injEq] at hnew
        have hp := hinv _ (Load_mem _ _ _ hl)
        rw [← hnew]
        exact hp

/-- C10 as the code has it: in every cached policy `Fields` is the comma-join of names
that are columns of its table in the catalog, and every sequence of registry calls keeps
this provided the names the caller supplies are catalog columns: the `SenseFields` of a
registration that gives any, the list of `ModifyField`, the `fields` of `ModifyPolicy`.
A registration without sense fields needs no condition; supplied names are not checked. -/
theorem FieldsInv_preserved (cat : String → List String) (steps : List (Env × RegistryOp))
    (st : State) (hinv : FieldsInv cat st)
    (hcat : ∀ step ∈ steps, ∀ t, catalog step.1 t = cat t)
    (hargs : ∀ step ∈ steps, step.2.fieldArgs cat step.1) :
    FieldsInv cat (runOps steps st) := by
  induction steps generalizing st with
  | nil => exact hinv
  | cons step rest ih =>
    have hstep := FieldsInv_step cat step.1 st step.2 hinv (hcat step (by simp))
      (hargs step (by simp))
    exact ih (step.2.run step.1 st).2 hstep
      (fun s hs => hcat s (List.mem_cons_of_mem _ hs))
      (fun s hs => hargs s (List.mem_cons_of_mem _ hs))

/-- C10 at a concrete run: `notes` is registered without sense fields and its fields are
then set to `note`, a catalog column. -/
theorem FieldsInv_preserved_witness :
    FieldsInv (catalog Env.sample) (runOps
      [(Env.sample, .registerWithPolicy { Table := .named "notes" }),
        (Env.sample, .modifyField "notes" ["note"])] State.initial) ∧
    Load (runOps
      [(Env.sample, .registerWithPolicy { Table := .named "notes" }),
        (Env.sample, .modifyField "notes" ["note"])] State.initial).svc.allPolicy "notes"
      = some { Policy.notes with Fields := "note" } :=
  ⟨FieldsInv_preserved (catalog Env.sample)
      [(Env.sample, .registerWithPolicy { Table := .named "notes" }),
        (Env.sample, .modifyField "notes" ["note"])] State.initial
      (by
        intro e he
        have hempty : State.initial.svc.allPolicy = [] := rfl
        rw [hempty] at he
        exact absurd he (List.not_mem_nil e))
      (by
        intro step hs t
        simp only [List.mem_cons, List.mem_singleton, List.not_mem_nil, or_false] at hs
        rcases hs with rfl | rfl <;> rfl)
      (by
        intro step hs
        simp only [List.mem_cons, List.mem_singleton, List.not_mem_nil, or_false] at hs
        rcases hs with rfl | rfl
        · exact Or.inl (Or.inl rfl)
        · intro f hf
          have : f = "note" := by simpa using hf
          subst this
          decide),
    rfl⟩

/-- No list of columns of `notes` joins to `ghost`. -/
theorem ghost_not_join (names : List String)
    (hall : ∀ f ∈ names, f ∈ catalog Env.sample "notes") : "ghost" ≠ Join names "," := by
  have hcat : catalog Env.sample "notes" = ["id", "created_at", "note"] := rfl
  rw [hcat] at hall
  match names, hall with
  | [], _ => decide
  | [a], hall =>
    have ha := hall a (by simp)
    simp only [List.mem_cons, List.mem_singleton, List.not_mem_nil, or_false] at ha
    rcases ha with rfl | rfl | rfl <;> decide
  | a :: b :: rest, hall =>
    have ha := hall a (by simp)
    simp only [List.mem_cons, List.mem_singleton, List.not_mem_nil, or_false] at ha
    intro h
    have hd := congrArg String.data h
    rcases ha with rfl | rfl | rfl <;> simp [Join, String.data_append] at hd

/-- C10 refuted as stated: the catalog of `notes` has the columns `id`, `created_at` and
`note`; a registration with `SenseFields = ["ghost"]` returns nil and stores a policy
whose fields list is `["ghost"]`, and `ModifyField("notes", ["ghost"])` on the registered
table returns nil and stores the same; `ghost` is no column of `notes`, and the registry
after the registration does not have the sensed-field invariant. -/
theorem unknown_field_counterexample :
    catalog Env.sample "notes" = ["id", "created_at", "note"] ∧
    (RegisterWithPolicy Env.sample State.initial
      { Table := .named "notes", SenseFields := ["ghost"] }).1 = none ∧
    (Load (RegisterWithPolicy Env.sample State.initial
      { Table := .named "notes", SenseFields := ["ghost"] }).2.svc.allPolicy "notes").map
        (fun p => p.Fields) = some "ghost" ∧
    fieldsStr (Env.sample.GetFields "notes")
      { Table := .named "notes", SenseFields := ["ghost"] } = ["ghost"] ∧
    (ModifyField Env.sample State.withNotes "notes" ["ghost"]).1 = none ∧
    (Load (ModifyField Env.sample State.withNotes "notes" ["ghost"]).2.svc.allPolicy
      "notes").map (fun p => p.Fields) = some "ghost" ∧
    Split "ghost" = ["ghost"] ∧
    "ghost" ∉ catalog Env.sample "notes" ∧
    ¬ FieldsInv (catalog Env.sample) (RegisterWithPolicy Env.sample State.initial
      { Table := .named "notes", SenseFields := ["ghost"] }).2 := by
  refine ⟨rfl, rfl, rfl, rfl, rfl, rfl, ?_, ?_, ?_⟩
  · decide
  · decide
  · intro hinv
    have hmem : (("notes", { Policy.notes with Fields := "ghost" }) : String × Policy) ∈
        (RegisterWithPolicy Env.sample State.initial
          { Table := .named "notes", SenseFields := ["ghost"] }).2.svc.allPolicy := by
      have hall : (RegisterWithPolicy Env.sample State.initial
          { Table := .named "notes", SenseFields := ["ghost"] }).2.svc.allPolicy
          = [("notes", { Policy.notes with Fields := "ghost" })] := rfl
      rw [hall]
      exact List.mem_singleton.mpr rfl
    obtain ⟨names, hj, hall⟩ := hinv _ hmem
    exact ghost_not_join names hall hj

/-! ## Theorems: cache keys -/

/-- Every registry call keeps the cache keyed by the table names of its policies. -/
theorem KeysMatch_step (env : Env) (st : State) (op : RegistryOp) (hkeys : KeysMatch st) :
    KeysMatch (op.run env st).2 := by
  intro e he
  rcases (RegistryOp.run_mem env st op).2.2 e he with hold | hnew
  · exact hkeys e hold
  · cases op with
    | registerWithPolicy pol =>
      simp only [RegistryOp.stored] at hnew
      cases hl : Load st.svc.allPolicy (env.GetTableName pol.Table) with
      | some q => simp [hl] at hnew
      | none =>
        simp only [hl] at hnew
        cases hb : builtPolicy env st pol with
        | none => simp [hb] at hnew
        | some p =>
          simp only [hb, Option.map_some', Option.some.injEq] at hnew
          rw [← hnew]
          exact (builtPolicy_eq env st pol p hb).1
    | unRegister table => simp [RegistryOp.stored] at hnew
    | modifyPolicy tableName args =>
      simp only [RegistryOp.stored] at hnew
      cases hl : Load st.svc.allPolicy tableName with
      | none => simp [hl] at hnew
      | some p =>
        simp only [hl, Option.map_some', Option.some.injEq] at hnew
        have hp := hkeys _ (Load_mem _ _ _ hl)
        rw [← hnew]
        exact (applyArgs_frame p args).1.trans hp
    | modifyOutdate tableName outdate =>
      simp only [RegistryOp.stored] at hnew
      cases hl : Load st.svc.allPolicy tableName with
      | none => simp [hl] at hnew
      | some p =>
        simp only [hl, Option.map_some', Option.some.injEq] at hnew
        have hp := hkeys _ (Load_mem _ _ _ hl)
        rw [← hnew]
        exact hp
    | modifyField tableName fields =>
      simp only [RegistryOp.stored] at hnew
      cases hl : Load st.svc.allPolicy tableName with
      | none => simp [hl] at hnew
      | some p =>
        simp only [hl, Option.map_some', Option.some.injEq] at hnew
        have hp := hkeys _ (Load_mem _ _ _ hl)
        rw [← hnew]
        exact hp
    | modifyMinLogNum tableName minLogNum =>
      simp only [RegistryOp.stored] at hnew
      cases hl : Load st.svc.allPolicy tableName with
      | none => simp [hl] at hnew
      | some p =>
        simp only [hl, Option.map_some', Option.some.injEq] at hnew
        have hp := hkeys _ (Load_mem _ _ _ hl)
        rw [← hnew]
        exact hp

/-- From the empty cache that `Init` makes, every sequence of registry calls leaves the
cache keyed by the table names of its policies. -/
theorem KeysMatch_runOps (steps : List (Env × RegistryOp)) (st : State) (hkeys : KeysMatch st) :
    KeysMatch (runOps steps st) := by
  induction steps generalizing st with
  | nil => exact hkeys
  | cons step rest ih => exact ih (step.2.run step.1 st).2 (KeysMatch_step step.1 st step.2 hkeys)

theorem KeysMatch_Init (cfg : DataLogConfig) (s : MetaService) (st : State)
    (h : st.svc = Init cfg s) : KeysMatch st := by
  intro e he
  rw [h] at he
  simp [Init] at he

/-! ## Theorems: registering a table that is already registered -/

/-- C11 as the code has it: for every table that is already present in the policy
registry, `RegisterWithPolicy` returns nil, not an error, whenever the table passes
`registerCheck` and has a non-empty name; the registry, the policy table, the triggers
and the logger are left as they were. An error is returned only when `registerCheck`
rejects the table or its name is empty, and it is then not a duplicate-registration
error. -/
theorem RegisterWithPolicy_duplicate_is_nil (env : Env) (st : State) (pol : TablePolicy)
    (q : Policy) (hl : Load st.svc.allPolicy (env.GetTableName pol.Table) = some q) :
    ((registerCheck env st pol.Table).1 = true → env.GetTableName pol.Table ≠ "" →
      RegisterWithPolicy env st pol = (none, (registerCheck env st pol.Table).2)) ∧
    ((registerCheck env st pol.Table).1 = false →
      (RegisterWithPolicy env st pol).1 = some (fmtV pol.Table ++ "不合法")) ∧
    ((registerCheck env st pol.Table).1 = true → env.GetTableName pol.Table = "" →
      (RegisterWithPolicy env st pol).1 = some "表名不能为空") ∧
    (RegisterWithPolicy env st pol).2.svc = st.svc ∧
    (RegisterWithPolicy env st pol).2.policyTable = st.policyTable ∧
    (RegisterWithPolicy env st pol).2.triggers = st.triggers ∧
    (RegisterWithPolicy env st pol).2.eventTriggers = st.eventTriggers ∧
    (RegisterWithPolicy env st pol).2.loggerCalls = st.loggerCalls := by
  have hf := registerCheck_frame env st pol.Table
  unfold RegisterWithPolicy
  simp only []
  rcases hrc : registerCheck env st pol.Table with ⟨ok, st0⟩
  rw [hrc] at hf
  simp only at hf
  have hsvc : st0.svc = st.svc := by rw [hf]
  have h1 : st0.policyTable = st.policyTable := by rw [hf]
  have h2 : st0.triggers = st.triggers := by rw [hf]
  have h3 : st0.eventTriggers = st.eventTriggers := by rw [hf]
  have h4 : st0.loggerCalls = st.loggerCalls := by rw [hf]
  cases ok with
  | false =>
    exact ⟨by intro h; simp at h, fun _ => rfl, by intro h; simp at h, hsvc, h1, h2, h3, h4⟩
  | true =>
    simp only []
    by_cases hn : env.GetTableName pol.Table = ""
    · rw [if_pos hn]
      exact ⟨fun _ h => absurd hn h, by intro h; simp at h, fun _ _ => rfl, hsvc, h1, h2, h3, h4⟩
    · rw [if_neg hn, hsvc, hl]
      exact ⟨fun _ _ => rfl, by intro h; simp at h, fun _ h => absurd h hn, hsvc, h1, h2, h3, h4⟩

/-- C11 at a concrete registry: `notes` is registered and is registered once more. -/
theorem RegisterWithPolicy_duplicate_is_nil_witness :
    Load State.withNotes.svc.allPolicy (Env.sample.GetTableName (.named "notes"))
      = some Policy.notes ∧
    RegisterWithPolicy Env.sample State.withNotes { Table := .named "notes" }
      = (none, State.withNotes) :=
  ⟨rfl,
    (RegisterWithPolicy_duplicate_is_nil Env.sample State.withNotes { Table := .named "notes" }
      Policy.notes rfl).1 rfl (by decide)⟩

/-- C11 refuted as stated: `notes` is present in the policy registry, and registering it
again returns nil, that is success, and changes nothing. -/
theorem duplicate_registration_counterexample :
    Load State.withNotes.svc.allPolicy "notes" = some Policy.notes ∧
    Env.sample.GetTableName (.named "notes") = "notes" ∧
    (RegisterWithPolicy Env.sample State.withNotes { Table := .named "notes" }).1 = none ∧
    (RegisterWithPolicy Env.sample State.withNotes { Table := .named "notes" }).2
      = State.withNotes ∧
    ¬ ((RegisterWithPolicy Env.sample State.withNotes { Table := .named "notes" }).1 ≠ none) := by
  refine ⟨rfl, rfl, rfl, rfl, ?_⟩
  decide

/-! ## Theorems: what `ModifyPolicy` changes -/

/-- Rewriting the entry of one key: that key is bound to the new policy when it was
bound at all, every other key is bound as before. -/
theorem Load_rewrite (m : List (String × Policy)) (tableName k : String) (policy : Policy) :
    Load (m.map (fun e => if e.1 == tableName then (e.1, policy) else e)) k =
      if k = tableName then (Load m k).map (fun _ => policy) else Load m k := by
  induction m with
  | nil =>
    show Load [] k = _
    split_ifs <;> rfl
  | cons e m ih =>
    obtain ⟨a, b⟩ := e
    by_cases ha : a = tableName
    · have hb : (a == tableName) = true := by simpa using ha
      simp only [List.map_cons, hb, if_true, Load_cons]
      by_cases hk : k = a
      · have hkt : k = tableName := hk.trans ha
        simp [hk, ha]
      · rw [if_neg hk, if_neg hk]
        exact ih
    · have hb : (a == tableName) = false := by simpa using ha
      simp only [List.map_cons, hb, Bool.false_eq_true, if_false, Load_cons]
      by_cases hk : k = a
      · have hkt : ¬ k = tableName := by rw [hk]; exact ha
        simp [hk, ha]
      · rw [if_neg hk, if_neg hk]
        exact ih

/-- C14: for a registered table, after `ModifyPolicy` the registry holds for it the old
policy with `Outdate` replaced exactly when `out_date` is an `int` other than 0, `Fields`
replaced by the comma-join exactly when `fields` is a non-nil `[]string`, `MinLogNum`
replaced exactly when `min_log_num` is an `int` other than 0, each by the given value;
`TableName`, `PrimaryFields`, `RelaField` and `Relations` are the old ones and the policy
of every other table is the one it was. For an unregistered table the call returns the
error "表未注册" and the state is the one before. -/
theorem ModifyPolicy_frame (env : Env) (st : State) (tableName : String)
    (args : List (String × Value)) :
    (∀ p, Load st.svc.allPolicy tableName = some p →
      ∃ p2, Load (ModifyPolicy env st tableName args).2.svc.allPolicy tableName = some p2 ∧
        (p2.Outdate =
          match args.lookup "out_date" with
          | some (.int val) => if val ≠ 0 then val else p.Outdate
          | _ => p.Outdate) ∧
        (p2.Fields =
          match args.lookup "fields" with
          | some (.strings (some val)) => Join val ","
          | _ => p.Fields) ∧
        (p2.MinLogNum =
          match args.lookup "min_log_num" with
          | some (.int val) => if val ≠ 0 then val else p.MinLogNum
          | _ => p.MinLogNum) ∧
        p2.TableName = p.TableName ∧ p2.PrimaryFields = p.PrimaryFields ∧
        p2.RelaField = p.RelaField ∧ p2.Relations = p.Relations) ∧
    (∀ u, u ≠ tableName →
      Load (ModifyPolicy env st tableName args).2.svc.allPolicy u = Load st.svc.allPolicy u) ∧
    (Load st.svc.allPolicy tableName = none →
      ModifyPolicy env st tableName args = (some "表未注册", st)) := by
  refine ⟨?_, ?_, ?_⟩
  · intro p hp
    refine ⟨applyArgs p args, ?_, applyArgs_Outdate p args, applyArgs_Fields p args,
      applyArgs_MinLogNum p args, applyArgs_frame p args⟩
    unfold ModifyPolicy
    rw [hp]
    simp only []
    rw [savePolicy_svc]
    simp only []
    rw [Load_rewrite, if_pos rfl, hp]
    rfl
  · intro u hu
    unfold ModifyPolicy
    cases hl : Load st.svc.allPolicy tableName with
    | none => rfl
    | some p =>
      simp only []
      rw [savePolicy_svc]
      simp only []
      rw [Load_rewrite, if_neg hu]
  · intro hl
    unfold ModifyPolicy
    rw [hl]

/-- C14 at a concrete call: on the registered `notes`, `out_date = 7` and a field list
are taken over and `min_log_num = 0` changes nothing; on an empty registry the call
returns the error and the state as it was. -/
theorem ModifyPolicy_frame_witness :
    (ModifyPolicy Env.sample State.withNotes "notes"
      [("out_date", .int 7), ("fields", .strings (some ["id", "note"])),
        ("min_log_num", .int 0)]).1 = none ∧
    Load (ModifyPolicy Env.sample State.withNotes "notes"
      [("out_date", .int 7), ("fields", .strings (some ["id", "note"])),
        ("min_log_num", .int 0)]).2.svc.allPolicy "notes"
      = some { Policy.notes with Outdate := 7, Fields := "id,note" } ∧
    ModifyPolicy Env.sample State.initial "notes" [("out_date", .int 7)]
      = (some "表未注册", State.initial) :=
  ⟨rfl, rfl,
    (ModifyPolicy_frame Env.sample State.initial "notes" [("out_date", .int 7)]).2.2 rfl⟩

/-! ## Theorems: trigger naming -/

set_option maxRecDepth 100000

/-- The text of the row trigger, whatever the names: the function is created under
`funcName`; the `UPDATE`, `DELETE` and `INSERT` branches each reach, before any `END IF`,
the insert of the table's event with the action `update`, `delete`, `insert` into the
staging table; the trigger `triggerName` is created on the table and fires `funcName`. -/
theorem rowTriggerSQL_shape :
    ∃ h0 h1 h2 h3 h4 h5 m1 m2 m3 : String,
      (Lacks m1 "END IF" ∧ Lacks m2 "END IF" ∧ Lacks m3 "END IF") ∧
      ∀ funcName logTableName tableName triggerName : String,
        rowTriggerSQL funcName logTableName tableName triggerName =
          h0 ++ "create or replace FUNCTION " ++ funcName ++ h1 ++
          branchOf "UPDATE" m1 (insertStmt logTableName tableName "update") ++ h2 ++
          branchOf "DELETE" m2 (insertStmt logTableName tableName "delete") ++ h3 ++
          branchOf "INSERT" m3 (insertStmt logTableName tableName "insert") ++ h4 ++
          createTriggerStmt triggerName tableName funcName ++ h5 := by
  refine ⟨"\n\t\t", " RETURNS trigger\n\t\tLANGUAGE plpgsql\n\t    AS $$\n\t    declare logjson json;\n\t    BEGIN\n\t        --只有update的时候有OLD，所以必须判断操作类型为UPDATE\n\t        ", " , CURRENT_TIMESTAMP);\n\t        END IF;\n\t        ", ", CURRENT_TIMESTAMP);\n\t        END IF;\n\t        ", ", CURRENT_TIMESTAMP);\n\t        END IF;\n\t    RETURN NEW;\n\tEND$$;\n\n\t", "\n\t\t",
    " THEN\n\t            --如果用户名被修改了，就插入到日志，并记录新、旧名字\n\t        \tSELECT json_build_object(\n\t                \x27before\x27, json_agg(old),\n\t                \x27after\x27, json_agg(new)\n\t            ) into logjson;\n\t            ",
    " then\n\t        \tselect json_build_object(\x27data\x27, json_agg(old)) into logjson;\n\t            ",
    " then\n\t        \tselect json_build_object(\x27data\x27, json_agg(new)) into logjson;\n\t            ", ⟨?_, ?_, ?_⟩, ?_⟩
  · unfold Lacks
    decide
  · unfold Lacks
    decide
  · unfold Lacks
    decide
  · intro funcName logTableName tableName triggerName
    have e0 : "\n\t\tcreate or replace FUNCTION " = "\n\t\t" ++ "create or replace FUNCTION " := by decide
    have e1 : " RETURNS trigger\n\t\tLANGUAGE plpgsql\n\t    AS $$\n\t    declare logjson json;\n\t    BEGIN\n\t        --只有update的时候有OLD，所以必须判断操作类型为UPDATE\n\t        IF (TG_OP = \x27UPDATE\x27) THEN\n\t            --如果用户名被修改了，就插入到日志，并记录新、旧名字\n\t        \tSELECT json_build_object(\n\t                \x27before\x27, json_agg(old),\n\t                \x27after\x27, json_agg(new)\n\t            ) into logjson;\n\t            INSERT INTO \""
        = " RETURNS trigger\n\t\tLANGUAGE plpgsql\n\t    AS $$\n\t    declare logjson json;\n\t    BEGIN\n\t        --只有update的时候有OLD，所以必须判断操作类型为UPDATE\n\t        " ++ "IF (TG_OP = \x27" ++ "UPDATE" ++ "\x27)" ++ " THEN\n\t            --如果用户名被修改了，就插入到日志，并记录新、旧名字\n\t        \tSELECT json_build_object(\n\t                \x27before\x27, json_agg(old),\n\t                \x27after\x27, json_agg(new)\n\t            ) into logjson;\n\t            " ++ "INSERT INTO \"" := by
      decide
    have e3 : "\x27, logjson, \x27update\x27 , CURRENT_TIMESTAMP);\n\t        END IF;\n\t        IF (TG_OP = \x27DELETE\x27) then\n\t        \tselect json_build_object(\x27data\x27, json_agg(old)) into logjson;\n\t            INSERT INTO \""
        = "\x27, logjson, \x27" ++ "update" ++ "\x27" ++ " , CURRENT_TIMESTAMP);\n\t        END IF;\n\t        " ++ "IF (TG_OP = \x27" ++ "DELETE" ++ "\x27)" ++ " then\n\t        \tselect json_build_object(\x27data\x27, json_agg(old)) into logjson;\n\t            " ++ "INSERT INTO \"" := by
      decide
    have e5 : "\x27, logjson, \x27delete\x27, CURRENT_TIMESTAMP);\n\t        END IF;\n\t        IF (TG_OP = \x27INSERT\x27) then\n\t        \tselect json_build_object(\x27data\x27, json_agg(new)) into logjson;\n\t            INSERT INTO \""
        = "\x27, logjson, \x27" ++ "delete" ++ "\x27" ++ ", CURRENT_TIMESTAMP);\n\t        END IF;\n\t        " ++ "IF (TG_OP = \x27" ++ "INSERT" ++ "\x27)" ++ " then\n\t        \tselect json_build_object(\x27data\x27, json_agg(new)) into logjson;\n\t            " ++ "INSERT INTO \"" := by
      decide
    have e7 : "\x27, logjson, \x27insert\x27, CURRENT_TIMESTAMP);\n\t        END IF;\n\t    RETURN NEW;\n\tEND$$;\n\n\tcreate trigger "
        = "\x27, logjson, \x27" ++ "insert" ++ "\x27" ++ ", CURRENT_TIMESTAMP);\n\t        END IF;\n\t    RETURN NEW;\n\tEND$$;\n\n\t" ++ "create trigger " := by
      decide
    have e10 : ";\n\t\t" = ";" ++ "\n\t\t" := by decide
    unfold rowTriggerSQL branchOf insertStmt createTriggerStmt
    rw [e0, e1, e3, e5, e7, e10]
    simp only [String.append_assoc]

/-- Where `buildTrigger` installs the row trigger: `CreateTrigger` is called with the body
`rowTriggerSQL` and the trigger name; its error ends the call, and on success the
installed row triggers are the old ones with that body under that name. -/
theorem buildTrigger_triggers (env : Env) (st : State) (tableName : String) :
    (∀ err, env.CreateTrigger
        (rowTriggerSQL (tableName ++ "_auto_log_recored()") st.svc.LogTableName tableName
          (tableName ++ "_auto_log_trigger")) (tableName ++ "_auto_log_trigger") = some err →
      buildTrigger env st tableName = (some err, st)) ∧
    (env.CreateTrigger
        (rowTriggerSQL (tableName ++ "_auto_log_recored()") st.svc.LogTableName tableName
          (tableName ++ "_auto_log_trigger")) (tableName ++ "_auto_log_trigger") = none →
      (buildTrigger env st tableName).2.triggers =
        installTrigger st.triggers (tableName ++ "_auto_log_trigger")
          (rowTriggerSQL (tableName ++ "_auto_log_recored()") st.svc.LogTableName tableName
            (tableName ++ "_auto_log_trigger"))) := by
  constructor
  · intro err h
    unfold buildTrigger
    simp only [h]
  · intro h
    unfold buildTrigger
    simp only [h]
    split
    · rfl
    · split
      · rfl
      · rfl

theorem mem_installTrigger (ts : List (String × String)) (name body : String) :
    (name, body) ∈ installTrigger ts name body ∧
    ∀ e ∈ installTrigger ts name body, e.1 = name → e.2 = body := by
  unfold installTrigger
  constructor
  · simp
  · intro e he hn
    rcases List.mem_append.mp he with h | h
    · have := (List.mem_filter.mp h).2
      simp [hn] at this
    · have : e = (name, body) := by simpa using h
      rw [this]

theorem mem_dropTrigger (ts : List (String × String)) (name : String) :
    ∀ e ∈ dropTrigger ts name, e.1 ≠ name ∧ e ∈ ts := by
  intro e he
  unfold dropTrigger at he
  have := List.mem_filter.mp he
  exact ⟨by simpa using this.2, this.1⟩

/-- C13: for every table name `t`, `buildTrigger` installs the row trigger through
`CreateTrigger` under the name `t ++ "_auto_log_trigger"`, with a body that creates the
function `t ++ "_auto_log_recored()"`, writes the event of `t` to the configured staging
table in each of the update, delete and insert branches, and creates the trigger of that
name on `t` firing that function; `UnRegister(t)` calls `DeleteTrigger` with exactly the
name `t ++ "_auto_log_trigger"`, so that after an install and a successful `UnRegister`
no row trigger of that name is installed. -/
theorem trigger_name_consistent (env env2 : Env) (st : State) (t : String) :
    (∀ err, env.CreateTrigger
        (rowTriggerSQL (t ++ "_auto_log_recored()") st.svc.LogTableName t
          (t ++ "_auto_log_trigger")) (t ++ "_auto_log_trigger") = some err →
      buildTrigger env st t = (some err, st)) ∧
    (env.CreateTrigger
        (rowTriggerSQL (t ++ "_auto_log_recored()") st.svc.LogTableName t
          (t ++ "_auto_log_trigger")) (t ++ "_auto_log_trigger") = none →
      (t ++ "_auto_log_trigger",
          rowTriggerSQL (t ++ "_auto_log_recored()") st.svc.LogTableName t
            (t ++ "_auto_log_trigger")) ∈ (buildTrigger env st t).2.triggers ∧
        ∀ e ∈ (buildTrigger env st t).2.triggers, e.1 = t ++ "_auto_log_trigger" →
          e.2 = rowTriggerSQL (t ++ "_auto_log_recored()") st.svc.LogTableName t
            (t ++ "_auto_log_trigger")) ∧
    (∃ h0 h1 h2 h3 h4 h5 m1 m2 m3 : String,
      (Lacks m1 "END IF" ∧ Lacks m2 "END IF" ∧ Lacks m3 "END IF") ∧
      rowTriggerSQL (t ++ "_auto_log_recored()") st.svc.LogTableName t (t ++ "_auto_log_trigger") =
        h0 ++ "create or replace FUNCTION " ++ (t ++ "_auto_log_recored()") ++ h1 ++
        branchOf "UPDATE" m1 (insertStmt st.svc.LogTableName t "update") ++ h2 ++
        branchOf "DELETE" m2 (insertStmt st.svc.LogTableName t "delete") ++ h3 ++
        branchOf "INSERT" m3 (insertStmt st.svc.LogTableName t "insert") ++ h4 ++
        createTriggerStmt (t ++ "_auto_log_trigger") t (t ++ "_auto_log_recored()") ++ h5) ∧
    (env2.DeleteByTableNameErr t = none →
      ((UnRegister env2 st t).1 = none ↔ env2.DeleteTrigger (t ++ "_auto_log_trigger") = none)) ∧
    (∀ st2, UnRegister env2 st t = (none, st2) →
      st2.triggers = dropTrigger st.triggers (t ++ "_auto_log_trigger")) ∧
    (∀ st1 st2, buildTrigger env st t = (none, st1) → UnRegister env2 st1 t = (none, st2) →
      ∀ e ∈ st2.triggers, e.1 ≠ t ++ "_auto_log_trigger" ∧ e ∈ st.triggers) := by
  obtain ⟨hb1, hb2⟩ := buildTrigger_triggers env st t
  refine ⟨hb1, ?_, ?_, ?_, ?_, ?_⟩
  · intro h
    rw [hb2 h]
    exact mem_installTrigger _ _ _
  · obtain ⟨h0, h1, h2, h3, h4, h5, m1, m2, m3, hl, hs⟩ := rowTriggerSQL_shape
    exact ⟨h0, h1, h2, h3, h4, h5, m1, m2, m3, hl, hs _ _ _ _⟩
  · intro hd
    unfold UnRegister
    simp only [hd]
    cases hdt : env2.DeleteTrigger (t ++ "_auto_log_trigger") with
    | none => simp
    | some e => simp
  · intro st2 h
    exact (UnRegister_ok env2 st st2 t h).2.2
  · intro st1 st2 hb hu e he
    have hcreate : env.CreateTrigger
        (rowTriggerSQL (t ++ "_auto_log_recored()") st.svc.LogTableName t
          (t ++ "_auto_log_trigger")) (t ++ "_auto_log_trigger") = none := by
      cases hc : env.CreateTrigger
        (rowTriggerSQL (t ++ "_auto_log_recored()") st.svc.LogTableName t
          (t ++ "_auto_log_trigger")) (t ++ "_auto_log_trigger") with
      | none => rfl
      | some err =>
        have := hb1 err hc
        rw [hb] at this
        simp at this
    have h1 := hb2 hcreate
    rw [hb] at h1
    simp only at h1
    have h2 := (UnRegister_ok env2 st1 st2 t hu).2.2
    rw [h2, h1] at he
    obtain ⟨hne, hmem⟩ := mem_dropTrigger _ _ e he
    refine ⟨hne, ?_⟩
    unfold installTrigger at hmem
    rcases List.mem_append.mp hmem with h | h
    · exact (List.mem_filter.mp h).1
    · have heq := List.mem_singleton.mp h
      rw [heq] at hne
      exact absurd rfl hne

/-- C13 at a concrete table: the trigger of `notes` is installed as
`notes_auto_log_trigger` and `UnRegister("notes")` leaves no row trigger. -/
theorem trigger_name_consistent_witness :
    (buildTrigger Env.sample State.initial "notes").1 = none ∧
    (buildTrigger Env.sample State.initial "notes").2.triggers.map (fun e => e.1)
      = ["notes_auto_log_trigger"] ∧
    (UnRegister Env.sample (buildTrigger Env.sample State.initial "notes").2 "notes").1 = none ∧
    (UnRegister Env.sample (buildTrigger Env.sample State.initial "notes").2 "notes").2.triggers
      = [] ∧
    ∀ e ∈ (UnRegister Env.sample (buildTrigger Env.sample State.initial "notes").2
        "notes").2.triggers, e.1 ≠ "notes" ++ "_auto_log_trigger" ∧ e ∈ State.initial.triggers :=
  ⟨rfl, rfl, rfl, rfl,
    (trigger_name_consistent Env.sample Env.sample State.initial "notes").2.2.2.2.2
      (buildTrigger Env.sample State.initial "notes").2
      (UnRegister Env.sample (buildTrigger Env.sample State.initial "notes").2 "notes").2
      rfl rfl⟩

/-! ## Theorems: comma-joined lists read back -/

theorem Join_data (names : List String) :
    (Join names ",").data = joinChars (names.map String.data) := by
  match names with
  | [] => rfl
  | [a] => rfl
  | a :: b :: rest =>
    have ih := Join_data (b :: rest)
    simp only [Join, String.data_append, List.map_cons, joinChars] at ih ⊢
    rw [ih]
    simp

theorem splitChars_no_sep (sep : Char) (a : List Char) (h : sep ∉ a) :
    splitChars sep a = [a] := by
  induction a with
  | nil => rfl
  | cons c cs ih =>
    have hc : c ≠ sep := fun hc => h (by simp [hc])
    have hcs : sep ∉ cs := fun hm => h (List.mem_cons_of_mem _ hm)
    simp only [splitChars, if_neg hc, ih hcs]

theorem splitChars_append_sep (sep : Char) (a rest : List Char) (h : sep ∉ a) :
    splitChars sep (a ++ sep :: rest) = a :: splitChars sep rest := by
  induction a with
  | nil => simp [splitChars]
  | cons c cs ih =>
    have hc : c ≠ sep := fun hc => h (by simp [hc])
    have hcs : sep ∉ cs := fun hm => h (List.mem_cons_of_mem _ hm)
    have e : splitChars sep (c :: (cs ++ sep :: rest))
        = match splitChars sep (cs ++ sep :: rest) with
          | [] => [[c]]
          | w :: ws => (c :: w) :: ws := by
      simp only [splitChars, if_neg hc]
    show splitChars sep (c :: (cs ++ sep :: rest)) = _
    rw [e, ih hcs]

theorem splitChars_joinChars (pieces : List (List Char)) (hne : pieces ≠ [])
    (h : ∀ a ∈ pieces, ',' ∉ a) : splitChars ',' (joinChars pieces) = pieces := by
  match pieces, hne, h with
  | [a], _, h => exact splitChars_no_sep ',' a (h a (by simp))
  | a :: b :: rest, _, h =>
    have ih := splitChars_joinChars (b :: rest) (by simp)
      (fun x hx => h x (List.mem_cons_of_mem _ hx))
    simp only [joinChars]
    rw [splitChars_append_sep ',' a _ (h a (by simp)), ih]

/-- Splitting the comma-join of a non-empty list of comma-free names gives the list. -/
theorem Split_Join (names : List String) (hne : names ≠ []) (hc : CommaFree names) :
    Split (Join names ",") = names := by
  unfold Split
  rw [Join_data, splitChars_joinChars]
  · rw [List.map_map]
    have : (String.mk ∘ String.data) = id := by
      funext s
      rfl
    rw [this, List.map_id]
  · simpa using hne
  · intro a ha
    obtain ⟨s, hs, rfl⟩ := List.mem_map.mp ha
    exact hc s hs

/-- The primary fields of the policy `RegisterWithPolicy` builds are the comma-join of
what `GetPrimary` returned. -/
theorem builtPolicy_primary (env : Env) (st : State) (pol : TablePolicy) (p : Policy)
    (h : builtPolicy env st pol = some p) :
    ∃ primary, env.GetPrimary (env.GetTableName pol.Table) = .ok primary ∧
      p.PrimaryFields = Join primary "," := by
  unfold builtPolicy at h
  split_ifs at h with hc
  rcases hb : buildPolicy env (registerCheck env st pol.Table).2 (env.GetTableName pol.Table)
    st.svc.MinLogNum st.svc.OutDate pol with ⟨r, st1⟩
  rw [hb] at h
  cases r with
  | error e => simp at h
  | ok q =>
    simp only [Option.some.injEq] at h
    subst h
    obtain ⟨primary, hg, hp, -, -⟩ := buildPolicy_ok _ _ _ _ _ _ _ _ hb
    exact ⟨primary, hg, by rw [hp]⟩

/-- The logger calls of a registration that built a policy for a new table: the one
`SetSenseFields` with the split of the stored `Fields`. -/
theorem RegisterWithPolicy_loggerCalls (env : Env) (st : State) (pol : TablePolicy) (p : Policy)
    (hl : Load st.svc.allPolicy (env.GetTableName pol.Table) = none)
    (h : builtPolicy env st pol = some p) :
    (RegisterWithPolicy env st pol).2.loggerCalls = st.loggerCalls ++
      [LoggerCall.SetSenseFields (env.GetTableName pol.Table) (Split p.Fields)] := by
  have hf := registerCheck_frame env st pol.Table
  unfold builtPolicy at h
  split_ifs at h with hc
  rw [RegisterWithPolicy_new env st pol hc.1 hc.2 hl]
  rcases hb : buildPolicy env (registerCheck env st pol.Table).2 (env.GetTableName pol.Table)
    st.svc.MinLogNum st.svc.OutDate pol with ⟨r, st1⟩
  rw [hb] at h
  cases r with
  | error e => simp at h
  | ok q =>
    simp only [Option.some.injEq] at h
    subst h
    obtain ⟨primary, -, -, -, hst⟩ := buildPolicy_ok _ _ _ _ _ _ _ _ hb
    simp only []
    rw [(buildTrigger_frame env _ _).2.2.1, hst]
    simp only []
    rw [hf]

/-- C15 as the code has it: splitting the comma-join of a list of names on "," gives
back the list, in order, when the list is not empty and no name contains a comma; the
join of the empty list splits into the one-element list of the empty string. So for a
registration of a new table: `SetSenseFields` receives the split of the stored `Fields`,
which is the list `buildPolicy` computed when that list is non-empty and comma-free, and
`ListTableAllLog` passes the logger the list `GetPrimary` returned when that list is
non-empty and comma-free. -/
theorem stored_lists_roundtrip (env env2 : Env) (st st2 : State) (pol : TablePolicy) (p : Policy)
    (startTime endTime : Option Nat) (page pageSize : Int)
    (hl : Load st.svc.allPolicy (env.GetTableName pol.Table) = none)
    (h : builtPolicy env st pol = some p)
    (hreg : Load st2.svc.allPolicy (env.GetTableName pol.Table) = some p) :
    (∀ names : List String, names ≠ [] → CommaFree names → Split (Join names ",") = names) ∧
    Split (Join [] ",") = [""] ∧
    (RegisterWithPolicy env st pol).2.loggerCalls = st.loggerCalls ++
      [LoggerCall.SetSenseFields (env.GetTableName pol.Table) (Split p.Fields)] ∧
    (fieldsStr (env.GetFields (env.GetTableName pol.Table)) pol ≠ [] →
      CommaFree (fieldsStr (env.GetFields (env.GetTableName pol.Table)) pol) →
      Split p.Fields = fieldsStr (env.GetFields (env.GetTableName pol.Table)) pol) ∧
    (∃ primary, env.GetPrimary (env.GetTableName pol.Table) = .ok primary ∧
      (primary ≠ [] → CommaFree primary →
        (ListTableAllLog env2 st2 (env.GetTableName pol.Table) startTime endTime page pageSize).1
          = env2.GetAllLogger (env.GetTableName pol.Table) primary startTime endTime page pageSize ∧
        (ListTableAllLog env2 st2 (env.GetTableName pol.Table) startTime endTime page pageSize).2.loggerCalls
          = st2.loggerCalls ++ [LoggerCall.GetAllLogger (env.GetTableName pol.Table) primary
              startTime endTime page pageSize])) := by
  refine ⟨Split_Join, by decide, RegisterWithPolicy_loggerCalls env st pol p hl h, ?_, ?_⟩
  · intro hne hc
    rw [(builtPolicy_eq env st pol p h).2.2.2]
    exact Split_Join _ hne hc
  · obtain ⟨primary, hg, hp⟩ := builtPolicy_primary env st pol p h
    refine ⟨primary, hg, fun hne hc => ?_⟩
    have hs : Split p.PrimaryFields = primary := by
      rw [hp]
      exact Split_Join _ hne hc
    unfold ListTableAllLog
    rw [hreg]
    simp [hs]

/-- C15 at a concrete registration: `notes` with fields `id, created_at, note` and
primary key `id`. -/
theorem stored_lists_roundtrip_witness :
    builtPolicy Env.sample State.initial { Table := .named "notes" } = some Policy.notes ∧
    (RegisterWithPolicy Env.sample State.initial { Table := .named "notes" }).2.loggerCalls
      = [LoggerCall.SetSenseFields "notes" ["id", "created_at", "note"]] ∧
    Split Policy.notes.Fields = ["id", "created_at", "note"] ∧
    Split (Join ["id", "created_at", "note"] ",") = ["id", "created_at", "note"] :=
  ⟨rfl, rfl, by decide,
    (stored_lists_roundtrip Env.sample Env.sample State.initial State.withNotes
      { Table := .named "notes" } Policy.notes none none 1 10 rfl rfl rfl).1
      ["id", "created_at", "note"] (by simp) (by unfold CommaFree; decide)⟩

/-- C15 refuted as stated: the empty list has no name with a comma, and splitting its
join gives `[""]`, not the empty list. A registration of `notes` that ignores every
column computes the empty sensed-field list and hands `SetSenseFields` the list `[""]`;
for a table whose `GetPrimary` returns the empty list, `ListTableAllLog` passes the
logger the primary-field list `[""]`. -/
theorem empty_list_roundtrip_counterexample :
    CommaFree [] ∧
    Split (Join [] ",") = [""] ∧
    Split (Join [] ",") ≠ [] ∧
    fieldsStr (Env.sample.GetFields "notes")
      { Table := .named "notes", IgnoreFields := ["id", "created_at", "note"] } = [] ∧
    (RegisterWithPolicy Env.sample State.initial
      { Table := .named "notes", IgnoreFields := ["id", "created_at", "note"] }).1 = none ∧
    (RegisterWithPolicy Env.sample State.initial
      { Table := .named "notes", IgnoreFields := ["id", "created_at", "note"] }).2.loggerCalls
      = [LoggerCall.SetSenseFields "notes" [""]] ∧
    Env.noPrimary.GetPrimary "notes" = .ok [] ∧
    (RegisterWithPolicy Env.noPrimary State.initial { Table := .named "notes" }).1 = none ∧
    (ListTableAllLog Env.noPrimary
      (RegisterWithPolicy Env.noPrimary State.initial { Table := .named "notes" }).2
      "notes" none none 1 10).2.loggerCalls
      = [LoggerCall.SetSenseFields "notes" ["id", "created_at", "note"],
          LoggerCall.GetAllLogger "notes" [""] none none 1 10] := by
  refine ⟨?_, ?_, ?_, rfl, rfl, rfl, rfl, rfl, rfl⟩
  · intro s hs
    exact absurd hs (List.not_mem_nil s)
  · decide
  · decide

/-! ## Theorems: `ListTable2` -/

theorem markListen_getElem (i : Nat) (l : List Table) (k : Nat) :
    (markListen i l)[k]? =
      (l[k]?).map (fun t => if k = i then { t with IsListen := true } else t) := by
  induction l generalizing i k with
  | nil => cases i <;> simp [markListen]
  | cons item rest ih =>
    cases i with
    | zero =>
      cases k with
      | zero => simp [markListen]
      | succ k => simp [markListen]
    | succ i =>
      cases k with
      | zero => simp [markListen]
      | succ k => simp [markListen, ih]

theorem Table.eta_or_false (t : Table) :
    ({ t with IsListen := t.IsListen || false } : Table) = t := by
  cases t
  simp

/-- After the marking loop, entry `k` is the catalog entry, listened when it was or when
some cached policy finds position `k` in the mapping. -/
theorem markAll_getElem (m : List (String × Nat)) (ps : List (String × Policy))
    (l : List Table) (k : Nat) :
    (ps.foldl
      (fun result e =>
        match m.lookup e.2.TableName with
        | some i => markListen i result
        | none => result) l)[k]? =
      (l[k]?).map (fun t => { t with IsListen :=
        (t.IsListen || ps.any (fun e => m.lookup e.2.TableName == some k)) }) := by
  induction ps generalizing l with
  | nil =>
    simp only [List.foldl_nil, List.any_nil]
    cases l[k]? with
    | none => rfl
    | some t => simp [Table.eta_or_false]
  | cons e ps ih =>
    simp only [List.foldl_cons, List.any_cons]
    rw [ih]
    cases hm : m.lookup e.2.TableName with
    | none =>
      simp only []
      cases l[k]? with
      | none => rfl
      | some t => simp
    | some i =>
      simp only []
      rw [markListen_getElem]
      cases l[k]? with
      | none => rfl
      | some t =>
        by_cases hk : k = i
        · subst hk
          simp
        · have hik : (i == k) = false := by simpa using fun h : i = k => hk h.symm
          simp [hk, hik]

/-- The mapping built from position `i` finds under a name the last position with that
name, and otherwise what it held before. -/
theorem buildMapping_lookup (name : String) (l : List Table) (i : Nat)
    (m : List (String × Nat)) :
    (buildMapping i l m).lookup name =
      match lastIdx name i l with
      | some j => some j
      | none => m.lookup name := by
  induction l generalizing i m with
  | nil => rfl
  | cons item rest ih =>
    simp only [buildMapping, lastIdx]
    rw [ih]
    cases lastIdx name (i + 1) rest with
    | some j => rfl
    | none =>
      simp only [List.lookup_cons]
      by_cases h : item.TableName = name
      · have hb : (name == item.TableName) = true := by simpa using h.symm
        simp [h, hb]
      · have hb : (name == item.TableName) = false := by simpa using fun h2 : name = item.TableName => h h2.symm
        simp [h, hb]

theorem lastIdx_none (name : String) (l : List Table) (i : Nat) :
    lastIdx name i l = none ↔ ∀ t ∈ l, t.TableName ≠ name := by
  induction l generalizing i with
  | nil => simp [lastIdx]
  | cons item rest ih =>
    simp only [lastIdx]
    cases h : lastIdx name (i + 1) rest with
    | some j =>
      have hne : ¬ ∀ t ∈ rest, t.TableName ≠ name := fun hall => by
        have := (ih (i + 1)).mpr hall
        rw [h] at this
        simp at this
      simp only [List.mem_cons, forall_eq_or_imp]
      constructor
      · intro h2
        simp at h2
      · intro h2
        exact absurd h2.2 hne
    | none =>
      have hall := (ih (i + 1)).mp h
      simp only [List.mem_cons, forall_eq_or_imp]
      by_cases hn : item.TableName = name
      · simp [hn]
      · simp only [if_neg hn, true_iff]
        exact ⟨hn, hall⟩

/-- `lastIdx` finds position `i + k` exactly when entry `k` has the name and no later
entry has it. -/
theorem lastIdx_some (name : String) (l : List Table) (i k : Nat) (t : Table)
    (hk : l[k]? = some t) :
    lastIdx name i l = some (i + k) ↔
      t.TableName = name ∧ ∀ k2 t2, k < k2 → l[k2]? = some t2 → t2.TableName ≠ name := by
  induction l generalizing i k with
  | nil => simp at hk
  | cons item rest ih =>
    have hbound : ∀ (j : Nat) (i2 : Nat) (l2 : List Table), lastIdx name i2 l2 = some j → i2 ≤ j := by
      intro j i2 l2
      induction l2 generalizing i2 with
      | nil => intro h; simp [lastIdx] at h
      | cons a r ihr =>
        intro h
        simp only [lastIdx] at h
        cases hr : lastIdx name (i2 + 1) r with
        | some j2 =>
          rw [hr] at h
          simp only [Option.some.injEq] at h
          have := ihr (i2 + 1) (h ▸ hr)
          omega
        | none =>
          rw [hr] at h
          simp only at h
          split_ifs at h
          simp only [Option.some.injEq] at h
          omega
    cases k with
    | zero =>
      simp only [List.getElem?_cons_zero, Option.some.injEq] at hk
      subst hk
      simp only [lastIdx, Nat.add_zero]
      cases h : lastIdx name (i + 1) rest with
      | some j =>
        have hj := hbound j (i + 1) rest h
        have hne : ¬ ∀ t ∈ rest, t.TableName ≠ name := fun hall => by
          have := (lastIdx_none name rest (i + 1)).mpr hall
          rw [h] at this
          simp at this
        constructor
        · intro h2
          simp only [Option.some.injEq] at h2
          omega
        · intro h2
          exfalso
          apply hne
          intro t2 ht2
          obtain ⟨n, hn⟩ := List.mem_iff_getElem?.mp ht2
          exact h2.2 (n + 1) t2 (Nat.succ_pos n) (by simpa using hn)
      | none =>
        have hall := (lastIdx_none name rest (i + 1)).mp h
        simp only []
        constructor
        · intro h2
          split_ifs at h2 with hn
          refine ⟨hn, ?_⟩
          intro k2 t2 hk2 ht2
          cases k2 with
          | zero => omega
          | succ n =>
            simp only [List.getElem?_cons_succ] at ht2
            exact hall t2 (List.mem_iff_getElem?.mpr ⟨n, ht2⟩)
        · intro h2
          rw [if_pos h2.1]
    | succ n =>
      simp only [List.getElem?_cons_succ] at hk
      have ihn := ih (i + 1) n hk
      have hidx : i + 1 + n = i + (n + 1) := by omega
      rw [hidx] at ihn
      simp only [lastIdx]
      constructor
      · intro h2
        cases h : lastIdx name (i + 1) rest with
        | some j =>
          rw [h] at h2
          simp only [Option.some.injEq] at h2
          subst h2
          obtain ⟨h3, h4⟩ := ihn.mp h
          refine ⟨h3, ?_⟩
          intro k2 t2 hk2 ht2
          cases k2 with
          | zero => omega
          | succ n2 =>
            simp only [List.getElem?_cons_succ] at ht2
            exact h4 n2 t2 (by omega) ht2
        | none =>
          rw [h] at h2
          simp only at h2
          split_ifs at h2
          simp only [Option.some.injEq] at h2
          omega
      · intro h2
        have : lastIdx name (i + 1) rest = some (i + (n + 1)) := by
          apply ihn.mpr
          refine ⟨h2.1, ?_⟩
          intro k2 t2 hk2 ht2
          exact h2.2 (k2 + 1) t2 (by omega) (by simpa using ht2)
        rw [this]

theorem markListen_length (i : Nat) (l : List Table) : (markListen i l).length = l.length := by
  induction l generalizing i with
  | nil => cases i <;> rfl
  | cons item rest ih =>
    cases i with
    | zero => rfl
    | succ i => simp [markListen, ih]

theorem markAll_length (m : List (String × Nat)) (ps : List (String × Policy))
    (l : List Table) :
    (ps.foldl
      (fun result e =>
        match m.lookup e.2.TableName with
        | some i => markListen i result
        | none => result) l).length = l.length := by
  induction ps generalizing l with
  | nil => rfl
  | cons e ps ih =>
    simp only [List.foldl_cons]
    rw [ih]
    cases m.lookup e.2.TableName with
    | none => rfl
    | some i => exact markListen_length i l

/-- Entry `k` of `ListTable2`: the catalog entry, listened when it was or when it is the
last entry with the table name of some cached policy. -/
theorem ListTable2_getElem (env : Env) (st : State) (k : Nat) :
    (ListTable2 env st)[k]? =
      (env.GetTables[k]?).map (fun t => { t with IsListen :=
        (t.IsListen || st.svc.allPolicy.any
          (fun e => lastIdx e.2.TableName 0 env.GetTables == some k)) }) := by
  unfold ListTable2
  simp only []
  rw [markAll_getElem]
  have hfun : (fun e : String × Policy =>
      (buildMapping 0 env.GetTables []).lookup e.2.TableName == some k)
      = (fun e : String × Policy => lastIdx e.2.TableName 0 env.GetTables == some k) := by
    funext e
    rw [buildMapping_lookup]
    cases lastIdx e.2.TableName 0 env.GetTables <;> rfl
  rw [hfun]

/-- Some cached policy has entry `k` as the last one of its table name exactly when the
table name of entry `k` is listed by `ListTable` and no later entry has it. -/
theorem any_lastIdx (env : Env) (st : State) (k : Nat) (t : Table)
    (hk : env.GetTables[k]? = some t) :
    st.svc.allPolicy.any (fun e => lastIdx e.2.TableName 0 env.GetTables == some k) = true ↔
      t.TableName ∈ ListTable st ∧
        ∀ k2 t3, k < k2 → env.GetTables[k2]? = some t3 → t3.TableName ≠ t.TableName := by
  rw [List.any_eq_true]
  unfold ListTable
  constructor
  · rintro ⟨e, he, hl⟩
    have hl2 : lastIdx e.2.TableName 0 env.GetTables = some (0 + k) := by simpa using hl
    obtain ⟨h1, h2⟩ := (lastIdx_some e.2.TableName env.GetTables 0 k t hk).mp hl2
    refine ⟨List.mem_map.mpr ⟨e, he, h1.symm⟩, ?_⟩
    rw [h1]
    exact h2
  · rintro ⟨hm, hlater⟩
    obtain ⟨e, he, hname⟩ := List.mem_map.mp hm
    refine ⟨e, he, ?_⟩
    have := (lastIdx_some e.2.TableName env.GetTables 0 k t hk).mpr
      ⟨hname.symm, by rw [hname]; exact hlater⟩
    simpa using this

/-- C12 as the code has it: `ListTable2` returns the catalog's entries unchanged in
number, order, `TableID` and `TableName`; an entry has `IsListen = true` exactly when it
arrived so, or its `TableName` is the table name of a registered policy and no later
catalog entry has the same `TableName`. For a catalog whose entries arrive with
`IsListen = false` and whose table names are pairwise distinct, an entry has
`IsListen = true` exactly when its `TableName` is the table name of a registered policy. -/
theorem ListTable2_marks (env : Env) (st : State) :
    (ListTable2 env st).length = env.GetTables.length ∧
    (∀ (k : Nat) (t : Table), env.GetTables[k]? = some t →
      ∃ t2 : Table, (ListTable2 env st)[k]? = some t2 ∧
        t2.TableID = t.TableID ∧ t2.TableName = t.TableName ∧
        (t2.IsListen = true ↔
          (t.IsListen = true ∨
            (t.TableName ∈ ListTable st ∧
              ∀ (k2 : Nat) (t3 : Table), k < k2 → env.GetTables[k2]? = some t3 →
                t3.TableName ≠ t.TableName)))) ∧
    ((∀ t ∈ env.GetTables, t.IsListen = false) →
      (env.GetTables.map (fun t => t.TableName)).Nodup →
      ListTable2 env st =
        env.GetTables.map (fun t => { t with IsListen := decide (t.TableName ∈ ListTable st) })) := by
  refine ⟨?_, ?_, ?_⟩
  · unfold ListTable2
    exact markAll_length _ _ _
  · intro k t hk
    refine ⟨{ t with IsListen :=
        (t.IsListen || st.svc.allPolicy.any
          (fun e => lastIdx e.2.TableName 0 env.GetTables == some k)) },
      by rw [ListTable2_getElem, hk]; rfl, rfl, rfl, ?_⟩
    simp only [Bool.or_eq_true]
    rw [any_lastIdx env st k t hk]
  · intro hfalse hnodup
    apply List.ext_getElem?
    intro k
    rw [ListTable2_getElem, List.getElem?_map]
    cases hk : env.GetTables[k]? with
    | none => rfl
    | some t =>
      simp only [Option.map_some', Option.some.injEq]
      have ht : t.IsListen = false := hfalse t (List.mem_iff_getElem?.mpr ⟨k, hk⟩)
      have hlater : ∀ k2 t3, k < k2 → env.GetTables[k2]? = some t3 →
          t3.TableName ≠ t.TableName := by
        intro k2 t3 hlt h3 heq
        have hlen : k2 < (env.GetTables.map (fun t => t.TableName)).length := by
          rw [List.length_map]
          exact (List.getElem?_eq_some.mp h3).1
        have := List.nodup_iff_getElem?_ne_getElem?.mp hnodup k k2 hlt hlen
        apply this
        rw [List.getElem?_map, List.getElem?_map, hk, h3]
        simp [heq]
      have hany := any_lastIdx env st k t hk
      by_cases hm : t.TableName ∈ ListTable st
      · have : st.svc.allPolicy.any
            (fun e => lastIdx e.2.TableName 0 env.GetTables == some k) = true :=
          hany.mpr ⟨hm, hlater⟩
        rw [this, ht]
        simp [hm]
      · have : st.svc.allPolicy.any
            (fun e => lastIdx e.2.TableName 0 env.GetTables == some k) = false := by
          cases hb : st.svc.allPolicy.any
            (fun e => lastIdx e.2.TableName 0 env.GetTables == some k) with
          | false => rfl
          | true => exact absurd (hany.mp hb).1 hm
        rw [this, ht]
        simp [hm]

/-- C12 at a concrete catalog and registry: the catalog holds `notes`, which is
registered, and `ListTable2` returns it marked. -/
theorem ListTable2_marks_witness :
    ListTable2 Env.sample State.withNotes
      = [{ TableID := "notes", TableName := "notes", IsListen := true }] ∧
    ListTable2 Env.sample State.initial
      = [{ TableID := "notes", TableName := "notes", IsListen := false }] ∧
    ListTable2 Env.sample State.withNotes =
      Env.sample.GetTables.map
        (fun t => { t with IsListen := decide (t.TableName ∈ ListTable State.withNotes) }) :=
  ⟨rfl, rfl,
    (ListTable2_marks Env.sample State.withNotes).2.2
      (by decide) (by decide)⟩

/-- C12 refuted as stated: the catalog holds two entries with the table name `notes`,
both arriving with `IsListen = false`, and `notes` is the table name of a registered
policy; `ListTable2` returns the first entry with `IsListen = false`. -/
theorem ListTable2_duplicate_name_counterexample :
    Env.twoNotes.GetTables =
      [{ TableID := "t1", TableName := "notes", IsListen := false },
        { TableID := "t2", TableName := "notes", IsListen := false }] ∧
    ListTable State.withNotes = ["notes"] ∧
    ListTable2 Env.twoNotes State.withNotes =
      [{ TableID := "t1", TableName := "notes", IsListen := false },
        { TableID := "t2", TableName := "notes", IsListen := true }] ∧
    ¬ (∀ t ∈ ListTable2 Env.twoNotes State.withNotes,
        (t.IsListen = true ↔ t.TableName ∈ ListTable State.withNotes)) := by
  refine ⟨rfl, rfl, rfl, ?_⟩
  decide

end DataManager
